import Mathlib

/-!
# DuckHunt-JS: the game session of `src/modules/Game.js`

A shallow embedding of class `Game`: its fields become the record `Game`, its
methods become functions on that record, and the event loop of the browser
becomes a step relation driven by `Event`.

Conventions of the embedding.

* JavaScript numbers are IEEE-754 doubles.  Integer-valued quantities (counters,
  millisecond timestamps, level parameters) are `Int`: on integers of magnitude
  below 2^53 double arithmetic is exact.  Every operation whose result need not
  be an integer (the product with `0.6`, the division by `1000`, the sums of
  seconds, the percentage) is rounded by `binary64`, round-to-nearest with ties
  to even on a 53 bit significand.  The exponent range is not bounded: overflow
  and subnormal numbers do not occur at the magnitudes of a game session.
* `NaN` and `undefined` are `none` in an `Option`.
* A method that can throw returns a `Res`: the object as the exception left it,
  and whether an exception was raised.
* The field `trace` records, newest first, the entries of the methods of `Game`
  and the commands that leave the session (gun sound, page reload), so that a
  theorem can say which calls an event made.
* Deferred code (the bodies of `setTimeout`, the continuations of the two
  animation promises) runs as an event of its own, enabled while it is pending.
* The classes `Stage`, `Sound` and the level data are not part of the sources.
  The answers of the stage at the instant of a handler call are a parameter
  (`Stage`), the level data another (`Config`).
-/

namespace DuckHunt

/-! ## Double precision rounding -/

/-- Nearest integer, ties to the even one. -/
def roundHalfEven (y : ℚ) : ℤ :=
  if y - ⌊y⌋ < 1 / 2 then ⌊y⌋
  else if 1 / 2 < y - ⌊y⌋ then ⌊y⌋ + 1
  else if ⌊y⌋ % 2 = 0 then ⌊y⌋ else ⌊y⌋ + 1

/-- Unit in the last place of a double of the magnitude of `x`: with
`2^e ≤ |x| < 2^(e+1)` it is `2^(e-52)`. -/
def ulp (x : ℚ) : ℚ := (2 : ℚ) ^ (Int.log 2 |x| - 52)

/-- The double nearest to the rational `x`. -/
def binary64 (x : ℚ) : ℚ := (roundHalfEven (x / ulp x) : ℚ) * ulp x

/-! ## Data model -/

/-- A point in window pixel coordinates. -/
structure Point where
  x : ℚ
  y : ℚ

/-- One entry of `levels.json`, or a level decoded from the page URL. -/
structure Level where
  title : String
  waves : Int
  ducks : Int
  pointsPerDuck : Int
  speed : ℚ
  bullets : Int
  radius : ℚ
  time : ℚ

/-- The level data the session is started with: `levels.normal` and, when
`levelCreator.urlContainsLevelData()` holds, the result of
`levelCreator.parseLevelQueryString()`. -/
structure Config where
  levels : List Level
  urlLevel : Option Level

/-- The answers of the `Stage` collaborator at the instant a handler runs. -/
structure Stage where
  clickedPauseLink : Point → Bool
  clickedMuteLink : Point → Bool
  clickedFullscreenLink : Point → Bool
  clickedCalibrateLink : Point → Bool
  clickedInstructionsLink : Point → Bool
  clickedLicenseKeyLink : Point → Bool
  clickedReplay : Point → Bool
  shotsFired : Point → ℚ → Nat
  dogActive : Bool
  ducksAlive : Bool
  ducksActive : Bool
  gazePositionX : ℚ
  gazePositionY : ℚ
  crosshairWidth : ℚ
  crosshairHeight : ℚ

/-- The size of the browser window: `window.innerWidth`, `window.innerHeight`. -/
structure Window where
  innerWidth : ℚ
  innerHeight : ℚ

/-- Calls recorded in order of occurrence (newest first): entries of the
methods of `Game` and the commands that leave the session. -/
inductive Call where
  | startLevel (levelIndex : Int)
  | startWave
  | endWave
  | goToNextWave
  | endLevel
  | goToNextLevel
  | win
  | loss
  | pause
  | mute
  | fullscreen
  | calibrate
  | licenseKey
  | openLevelCreator
  | gunSound
  | reload
  deriving DecidableEq, Repr

/-- The fields of a `Game` object.  The defaults are the values the
constructor leaves: fields it does not assign are `undefined` and are read
through getters that turn `undefined` into `0`. -/
structure Game where
  levelIndex : Int := 0
  maxScore : Int := 0
  timePaused : Option ℚ := some 0
  muted : Bool := false
  paused : Bool := false
  instructioned : Bool := false
  license : Bool := false
  waveEnding : Bool := false
  level : Option Level := none
  ducksMissed : Int := 0
  ducksShot : Int := 0
  bullets : Int := 0
  score : Int := 0
  wave : Int := 0
  gameStatus : String := ""
  ducksShotThisWave : Option Int := none
  waveStartTime : Option Int := none
  pauseStartTime : Option Int := none
  isFullscreen : Bool := false
  /-- The text of `stage.hud.replayButton`, once `showReplay` created it. -/
  replayButton : Option String := none
  /-- The stage exists and the handlers are bound (`onLoad` ran). -/
  loaded : Bool := false
  /-- The frame loop is registered with `requestAnimationFrame`. -/
  animating : Bool := false
  /-- Bodies of `setTimeout` in `pause` that have not run yet. -/
  pauseTimeouts : Nat := 0
  /-- Bodies of `setTimeout` in `licenseKey` that have not run yet. -/
  licenseTimeouts : Nat := 0
  /-- Promises of `stage.preLevelAnimation()` that have not resolved yet. -/
  introPending : Nat := 0
  /-- Promises of `stage.flyAway()` that have not resolved yet. -/
  flyAwayPending : Nat := 0
  trace : List Call := []

/-- Result of a method: the object afterwards and whether it threw. -/
structure Res where
  game : Game
  threw : Bool := false

/-- The object the constructor returns. -/
def construct : Game := {}

def MAX_X : ℚ := 800

def MAX_Y : ℚ := 600

/-- The literal `0.6`. -/
def SUCCESS_RATIO : ℚ := binary64 (6 / 10)

/-! ## Clock and pause accounting -/

/-- The expression `(Date.now() - t0) / 1000`; `NaN` when `t0` is undefined. -/
def secondsSince (now : Int) (t0 : Option Int) : Option ℚ :=
  t0.map fun t => binary64 (((now - t : Int) : ℚ) / 1000)

/-- The statement `this.timePaused += (Date.now() - this.pauseStartTime) / 1000`. -/
def addTimePaused (now : Int) (g : Game) : Option ℚ :=
  match g.timePaused, secondsSince now g.pauseStartTime with
  | some p, some d => some (binary64 (p + d))
  | _, _ => none

def waveElapsedTime (now : Int) (g : Game) : Option ℚ :=
  match secondsSince now g.waveStartTime, g.timePaused with
  | some e, some p => some (binary64 (e - p))
  | _, _ => none

def isWaveTimeUp (now : Int) (g : Game) : Bool :=
  match g.level with
  | some l =>
    match waveElapsedTime now g with
    | some e => decide (l.time ≤ e)
    | none => false
  | none => false

def outOfAmmo (g : Game) : Bool :=
  g.level.isSome && decide (g.bullets = 0)

def shouldWaveEnd (st : Stage) (now : Int) (g : Game) : Bool :=
  if g.wave = 0 ∨ g.waveEnding = true ∨ st.dogActive = true then false
  else isWaveTimeUp now g || (outOfAmmo g && st.ducksAlive) || !st.ducksActive

/-- The method `pause`: the label changes at once, the body is deferred. -/
def pause (g : Game) : Game :=
  { g with pauseTimeouts := g.pauseTimeouts + 1, trace := Call.pause :: g.trace }

/-- The deferred body of `pause`, run at instant `now`. -/
def pauseBody (now : Int) (g : Game) : Game :=
  if g.paused then
    { g with paused := false, timePaused := addTimePaused now g }
  else
    { g with paused := true, pauseStartTime := some now }

def mute (g : Game) : Game :=
  { g with muted := !g.muted, trace := Call.mute :: g.trace }

def fullscreen (g : Game) : Game :=
  { g with isFullscreen := !g.isFullscreen, trace := Call.fullscreen :: g.trace }

def calibrate (g : Game) : Game :=
  { g with trace := Call.calibrate :: g.trace }

def openLevelCreator (g : Game) : Game :=
  let g1 := { g with trace := Call.openLevelCreator :: g.trace }
  if g1.paused then g1 else pause g1

/-- The method `licenseKey`: the flag flips at once, the body is deferred. -/
def licenseKey (g : Game) : Game :=
  { g with license := !g.license, licenseTimeouts := g.licenseTimeouts + 1,
           trace := Call.licenseKey :: g.trace }

/-- The deferred body of `licenseKey`, run at instant `now`, as far as it
touches the session (the input element it creates or removes is not modelled). -/
def licenseKeyBody (now : Int) (g : Game) : Game :=
  if g.license then g
  else { g with timePaused := addTimePaused now g }

/-! ## Score and progression -/

/-- The method `levelWon`; `none` when it throws for want of a level. -/
def levelWon (g : Game) : Option Bool :=
  g.level.map fun l =>
    decide (binary64 (binary64 ( SUCCESS_RATIO * l.ducks) * l.waves) < (g.ducksShot : ℚ))

/-- The value of `(this.score / this.maxScore) * 100` for a non-zero `maxScore`. -/
def percentage (g : Game) : ℚ :=
  binary64 (binary64 ((g.score : ℚ) / (g.maxScore : ℚ)) * 100)

/-- The chain of assignments of `getScoreMessage` on a finite percentage;
`none` is `undefined`. -/
def scoreMessageOf (p : ℚ) : Option String :=
  let m0 : Option String := none
  let m1 := if p = 100 then some "Flawless victory." else m0
  let m2 := if p < 100 then some "Close to perfection." else m1
  let m3 := if p ≤ 95 then some "Truly impressive score." else m2
  let m4 := if p ≤ 85 then some "Solid score." else m3
  let m5 := if p ≤ 75 then some "Participation award." else m4
  let m6 := if p ≤ 63 then some "Yikes." else m5
  m6

/-- The method `getScoreMessage`.  With `maxScore = 0` the percentage is
`NaN` or an infinity: only `-Infinity` passes a test of the chain. -/
def getScoreMessage (g : Game) : Option String :=
  if g.maxScore = 0 then (if g.score < 0 then some "Yikes." else none)
  else scoreMessageOf (percentage g)

def showReplay (replayText : Option String) (g : Game) : Game :=
  { g with replayButton := some ((replayText.getD "undefined") ++ " Play Again?") }

def win (g : Game) : Game :=
  showReplay (getScoreMessage g)
    { g with gameStatus := "You Win!", trace := Call.win :: g.trace }

def loss (g : Game) : Game :=
  showReplay (getScoreMessage g)
    { g with gameStatus := "You Lose!", trace := Call.loss :: g.trace }

/-- The method `updateScore`.  Without a level the read of
`this.level.pointsPerDuck` throws after the two counters were updated. -/
def updateScore (n : Int) (g : Game) : Res :=
  let g1 := { g with ducksShot := g.ducksShot + n,
                     ducksShotThisWave := g.ducksShotThisWave.map (· + n) }
  match g.level with
  | some l => { game := { g1 with score := g.score + n * l.pointsPerDuck } }
  | none => { game := g1, threw := true }

/-! ## Level and wave lifecycle -/

/-- The entry `this.levels[i]`. -/
def levelAt (cfg : Config) (i : Int) : Option Level :=
  if 0 ≤ i then cfg.levels.get? i.toNat else none

def startLevel (cfg : Config) (g : Game) : Res :=
  let g0 := { g with trace := Call.startLevel g.levelIndex :: g.trace }
  let g1 : Game :=
    match cfg.urlLevel with
    | some l => { g0 with level := some l, levelIndex := (cfg.levels.length : Int) - 1 }
    | none => { g0 with level := levelAt cfg g0.levelIndex }
  match g1.level with
  | none => { game := g1, threw := true }
  | some l =>
    { game := { g1 with maxScore := g1.maxScore + l.waves * l.ducks * l.pointsPerDuck,
                        ducksShot := 0, ducksMissed := 0, wave := 0,
                        gameStatus := l.title,
                        introPending := g1.introPending + 1 } }

/-- The method `startWave`.  Without a level the setter of `wave` throws on
`this.level.waves` when the new wave number is positive, and the read of
`this.level.bullets` throws otherwise. -/
def startWave (now : Int) (g : Game) : Res :=
  let g1 := { g with wave := g.wave + 1, trace := Call.startWave :: g.trace }
  match g.level with
  | none =>
    if 0 < g1.wave then { game := g1, threw := true }
    else { game := { g1 with waveStartTime := some now }, threw := true }
  | some l =>
    { game := { g1 with waveStartTime := some now, bullets := l.bullets,
                        ducksShotThisWave := some 0, waveEnding := false } }

/-- The resolution of `stage.preLevelAnimation()`. -/
def introDone (now : Int) (g : Game) : Res :=
  startWave now { g with gameStatus := "", introPending := g.introPending - 1 }

def goToNextLevel (cfg : Config) (g : Game) : Res :=
  let g1 := { g with levelIndex := g.levelIndex + 1, trace := Call.goToNextLevel :: g.trace }
  match levelWon g1 with
  | none => { game := g1, threw := true }
  | some false => { game := loss g1 }
  | some true =>
    if g1.levelIndex < cfg.levels.length then startLevel cfg g1
    else { game := win g1 }

def endLevel (cfg : Config) (g : Game) : Res :=
  goToNextLevel cfg { g with wave := 0, trace := Call.endLevel :: g.trace }

def goToNextWave (cfg : Config) (now : Int) (g : Game) : Res :=
  let g1 := { g with trace := Call.goToNextWave :: g.trace }
  match g.level with
  | none => { game := g1, threw := true }
  | some l => if l.waves = g1.wave then endLevel cfg g1 else startWave now g1

/-- The resolution of `stage.flyAway()`. -/
def flyAwayDone (cfg : Config) (now : Int) (g : Game) : Res :=
  goToNextWave cfg now { g with flyAwayPending := g.flyAwayPending - 1 }

/-- The statement `this.ducksMissed += this.level.ducks - this.ducksShotThisWave`:
a `NaN` stored in `ducksMissedVal` reads back as `0`. -/
def addDucksMissed (l : Level) (g : Game) : Int :=
  match g.ducksShotThisWave with
  | some k => g.ducksMissed + (l.ducks - k)
  | none => 0

def endWave (cfg : Config) (st : Stage) (now : Int) (g : Game) : Res :=
  let g1 := { g with waveEnding := true, bullets := 0, trace := Call.endWave :: g.trace }
  if st.ducksAlive then
    match g.level with
    | none => { game := g1, threw := true }
    | some l =>
      { game := { g1 with ducksMissed := addDucksMissed l g1,
                          flyAwayPending := g1.flyAwayPending + 1 } }
  else goToNextWave cfg now g1

/-- The method `animate`, one frame.  The loop is registered again only
when the body did not throw. -/
def animate (cfg : Config) (st : Stage) (now : Int) (g : Game) : Res :=
  if g.paused then { game := g }
  else if shouldWaveEnd st now g then
    let r := endWave cfg st now g
    { game := { r.game with animating := !r.threw }, threw := r.threw }
  else { game := g }

/-! ## Input dispatch -/

/-- The point a gaze sample is projected to (`onBlink` and the key `q`). -/
def gazeClickPoint (st : Stage) (w : Window) : Point :=
  { x := binary64 (binary64 (binary64 (st.gazePositionX + binary64 (st.crosshairWidth / 2))
          * w.innerWidth) / MAX_X),
    y := binary64 (binary64 (binary64 (st.gazePositionY + binary64 (st.crosshairHeight / 2))
          * w.innerHeight) / MAX_Y) }

/-- The three statements of an accepted shot: `sound.play` of the gun sound,
`this.bullets -= 1`, `this.updateScore(this.stage.shotsFired(p, this.level.radius))`.
Without a level the read of `this.level.radius` throws after the decrement. -/
def shoot (st : Stage) (p : Point) (g : Game) : Res :=
  let g1 := { g with bullets := g.bullets - 1, trace := Call.gunSound :: g.trace }
  match g.level with
  | none => { game := g1, threw := true }
  | some l => updateScore (st.shotsFired p l.radius) g1

/-- The last two conditionals of every input handler (lines 372-381, 553-562,
601-610 and 925-934 are the same text): fire when the shot is legal,
otherwise reload the page when the replay button is shown and was hit. -/
def fireOrReplay (st : Stage) (now : Int) (p : Point) (g : Game) : Res :=
  if g.replayButton.isNone && !outOfAmmo g && !shouldWaveEnd st now g && !g.paused then
    shoot st p g
  else if g.replayButton.isSome && st.clickedReplay p then
    { game := { g with trace := Call.reload :: g.trace } }
  else { game := g }

/-- The chain of link tests that opens `handleClick` and the branches of the
keys space and `q` (lines 895-923, 523-551, 571-599 are the same text),
followed by `fireOrReplay`.  The class has no method `showInstructions`: the
call throws a `TypeError`. -/
def dispatch (st : Stage) (now : Int) (p : Point) (g : Game) : Res :=
  if st.clickedPauseLink p then { game := pause g }
  else if st.clickedMuteLink p then { game := mute g }
  else if st.clickedFullscreenLink p then { game := fullscreen g }
  else if st.clickedCalibrateLink p then { game := calibrate g }
  else if st.clickedInstructionsLink p then { game := g, threw := true }
  else if st.clickedLicenseKeyLink p then { game := licenseKey g }
  else fireOrReplay st now p g

/-- The method `handleClick`, bound to `mousedown` and `touchstart`. -/
def handleClick (st : Stage) (now : Int) (p : Point) (g : Game) : Res :=
  dispatch st now p g

/-- The method `onBlink`. -/
def onBlink (st : Stage) (w : Window) (now : Int) (isBlink : Bool) (g : Game) : Res :=
  if isBlink then fireOrReplay st now (gazeClickPoint st w) g
  else { game := g }

/-- The listener of `keypress`; `mouse` is the last position `mousemove` stored.
The key `h` only shows or hides the help panel of the page, which is no part
of the session. -/
def keypress (key : String) (st : Stage) (w : Window) (mouse : Point) (now : Int)
    (g : Game) : Res :=
  if key = "p" then { game := pause g }
  else if key = "m" then { game := mute g }
  else if key = "c" then { game := openLevelCreator g }
  else if key = "Enter" then { game := licenseKey g }
  else if key = "f" then { game := fullscreen g }
  else if key = "e" then { game := calibrate g }
  else if key = " " then dispatch st now mouse g
  else if key = "q" then dispatch st now (gazeClickPoint st w) g
  else { game := g }

/-- The method `onLoad`, as far as it touches the session: the handlers are
bound, the first level is started and the frame loop is entered (its first
frame finds `wave = 0` and does nothing). -/
def onLoad (cfg : Config) (g : Game) : Res :=
  let r := startLevel cfg { g with loaded := true }
  if r.threw then r else { game := { r.game with animating := true } }

/-! ## The event loop -/

/-- What the browser can deliver to a session. -/
inductive Event where
  | load
  | mousedown (st : Stage) (now : Int) (p : Point)
  | keypress (key : String) (st : Stage) (w : Window) (mouse : Point) (now : Int)
  | blink (st : Stage) (w : Window) (now : Int) (isBlink : Bool)
  | frame (st : Stage) (now : Int)
  | pauseTimeout (now : Int)
  | licenseTimeout (now : Int)
  | introResolved (now : Int)
  | flyAwayResolved (now : Int)

/-- An event can be delivered: input needs bound handlers, a frame needs the
registered loop, a continuation needs to be pending. -/
def enabled (g : Game) : Event → Bool
  | .load => !g.loaded
  | .mousedown _ _ _ => g.loaded
  | .keypress _ _ _ _ _ => g.loaded
  | .blink _ _ _ _ => g.loaded
  | .frame _ _ => g.animating
  | .pauseTimeout _ => decide (0 < g.pauseTimeouts)
  | .licenseTimeout _ => decide (0 < g.licenseTimeouts)
  | .introResolved _ => decide (0 < g.introPending)
  | .flyAwayResolved _ => decide (0 < g.flyAwayPending)

/-- The handler an event runs. -/
def handle (cfg : Config) (g : Game) : Event → Res
  | .load => onLoad cfg g
  | .mousedown st now p => handleClick st now p g
  | .keypress key st w mouse now => keypress key st w mouse now g
  | .blink st w now isBlink => onBlink st w now isBlink g
  | .frame st now => animate cfg st now g
  | .pauseTimeout now =>
    { game := pauseBody now { g with pauseTimeouts := g.pauseTimeouts - 1 } }
  | .licenseTimeout now =>
    { game := licenseKeyBody now { g with licenseTimeouts := g.licenseTimeouts - 1 } }
  | .introResolved now => introDone now g
  | .flyAwayResolved now => flyAwayDone cfg now g

/-- The object after an event; an exception ends the handler, not the session. -/
def step (cfg : Config) (g : Game) (ev : Event) : Game := (handle cfg g ev).game

/-- The states a session can be in. -/
inductive Reachable (cfg : Config) : Game → Prop where
  | init : Reachable cfg construct
  | step (g : Game) (ev : Event) : Reachable cfg g → enabled g ev = true →
      Reachable cfg (step cfg g ev)

/-- Run a list of events from a state. -/
def run (cfg : Config) (g : Game) : List Event → Game
  | [] => g
  | ev :: evs => run cfg (step cfg g ev) evs

/-! ## Invariants of the session -/

/-- A level the configuration can hand to `startLevel`. -/
def Config.Offers (cfg : Config) (l : Level) : Prop :=
  l ∈ cfg.levels ∨ cfg.urlLevel = some l

/-- The first `startLevel` finds a level. -/
def Config.Startable (cfg : Config) : Prop :=
  cfg.levels ≠ [] ∨ cfg.urlLevel.isSome = true

/-- Every recorded entry of `startLevel` found the level index inside the
level sequence. -/
def EntriesInside (cfg : Config) (g : Game) : Prop :=
  ∀ i, Call.startLevel i ∈ g.trace → i < cfg.levels.length

/-- What holds of every state of a session whose first level could be started. -/
structure Inv (cfg : Config) (g : Game) : Prop where
  fresh : g.loaded = false → g = construct
  levelOk : g.loaded = true → ∃ l, g.level = some l ∧ cfg.Offers l
  idxLo : cfg.urlLevel = none → 0 ≤ g.levelIndex
  idxHi : g.levelIndex ≤ cfg.levels.length
  idxIn : g.replayButton = none → g.loaded = true → g.levelIndex < cfg.levels.length
  pendLe : g.introPending + g.flyAwayPending ≤ 1
  introWave : 0 < g.introPending → g.wave = 0
  flyEnding : 0 < g.flyAwayPending → g.waveEnding = true
  over : g.replayButton.isSome = true →
    g.wave = 0 ∧ g.waveEnding = true ∧ g.introPending = 0 ∧ g.flyAwayPending = 0
      ∧ (g.gameStatus = "You Win!" ∨ g.gameStatus = "You Lose!")
  endingEmpty : g.waveEnding = true → g.bullets = 0
  bulletsNonneg : (∀ l, cfg.Offers l → 0 ≤ l.bullets) → 0 ≤ g.bullets
  animLoaded : g.animating = true → g.loaded = true
  entries : cfg.levels ≠ [] → EntriesInside cfg g

/-- A method ended well: the invariant holds of the result, nothing was thrown,
the session is still the loaded one and the level index did not drop below `lo`. -/
def Good (cfg : Config) (lo : Int) (r : Res) : Prop :=
  Inv cfg r.game ∧ r.threw = false ∧ r.game.loaded = true
    ∧ (cfg.levels ≠ [] → lo ≤ r.game.levelIndex)

/-- The conditions under which `goToNextWave` is entered: a wave of a loaded
level has just ended and nothing is pending. -/
structure WaveOver (cfg : Config) (g : Game) : Prop where
  level : ∃ l, g.level = some l ∧ cfg.Offers l
  loaded : g.loaded = true
  intro : g.introPending = 0
  fly : g.flyAwayPending = 0
  ending : g.waveEnding = true
  empty : g.bullets = 0
  noReplay : g.replayButton = none
  idxLo : cfg.urlLevel = none → 0 ≤ g.levelIndex
  entries : cfg.levels ≠ [] → EntriesInside cfg g

/-- What one event does to a state of the invariant: it keeps the invariant
and, when there are levels, it does not decrease the level index. -/
def Next (cfg : Config) (g g2 : Game) : Prop :=
  Inv cfg g2 ∧ (cfg.levels ≠ [] → g.levelIndex ≤ g2.levelIndex)

/-- The session whose first `startLevel` threw: handlers are bound, no level is
loaded, no frame loop runs and nothing is pending. -/
structure Stuck (g : Game) : Prop where
  loaded : g.loaded = true
  level : g.level = none
  ending : g.waveEnding = false
  anim : g.animating = false
  intro : g.introPending = 0
  fly : g.flyAwayPending = 0

/-- The counters a shot changes are the same in both states. -/
def SameTally (g g2 : Game) : Prop :=
  g2.bullets = g.bullets ∧ g2.score = g.score ∧ g2.ducksShot = g.ducksShot
    ∧ g2.ducksShotThisWave = g.ducksShotThisWave

/-- The object after the two assignments that open the end of a level:
`this.wave = 0` in `endLevel` and `this.levelIndex++` in `goToNextLevel`. -/
def afterLevel (g : Game) : Game :=
  { g with wave := 0, levelIndex := g.levelIndex + 1,
           trace := Call.goToNextLevel :: Call.endLevel :: g.trace }

/-- The counter of the current wave is a number whenever there are bullets to
fire: `ducksShotThisWave` is undefined only before the first `startWave`. -/
def TallyDefined (g : Game) : Prop :=
  g.bullets ≠ 0 → g.ducksShotThisWave.isSome = true

/-- The accumulated pause, when it is a number, is a double. -/
def PausedIsDouble (g : Game) : Prop :=
  ∀ P, g.timePaused = some P → binary64 P = P

/-- The allowance for the two roundings of `waveElapsedTime`. -/
def elapsedSlack (A P : ℚ) : ℚ := (|A| + |P|) / 2 ^ 51

/-! ## Concrete sessions -/

def exampleLevel (ducks waves : Int) : Level :=
  { title := "Level", waves := waves, ducks := ducks, pointsPerDuck := 10, speed := 5,
    bullets := 3, radius := 60, time := 13 }

/-- A session that shot `h` ducks in a level of the given size. -/
def gameWithShots (ducks waves h : Int) : Game :=
  { construct with level := some (exampleLevel ducks waves), ducksShot := h }

/-- One level of three waves of ten ducks, no level in the URL. -/
def exampleConfig : Config :=
  { levels := [exampleLevel 10 3], urlLevel := none }

/-- A stage with ducks in the air on which no shot hits and no link is hit. -/
def missStage : Stage :=
  { clickedPauseLink := fun _ => false, clickedMuteLink := fun _ => false,
    clickedFullscreenLink := fun _ => false, clickedCalibrateLink := fun _ => false,
    clickedInstructionsLink := fun _ => false, clickedLicenseKeyLink := fun _ => false,
    clickedReplay := fun _ => false, shotsFired := fun _ _ => 0,
    dogActive := false, ducksAlive := true, ducksActive := true,
    gazePositionX := 0, gazePositionY := 0, crosshairWidth := 0, crosshairHeight := 0 }

/-- The same stage with the pause link under every point. -/
def pauseLinkStage : Stage :=
  { missStage with clickedPauseLink := fun _ => true }

/-- The same stage with the instructions link under every point. -/
def instructionsLinkStage : Stage :=
  { missStage with clickedInstructionsLink := fun _ => true }

def exampleWindow : Window := { innerWidth := 800, innerHeight := 600 }

def origin : Point := { x := 0, y := 0 }

/-- The session in its first wave: loaded, intro animation finished at instant 0. -/
def midWave : Game :=
  run exampleConfig construct [Event.load, Event.introResolved 0]

/-- The session after three missed shots and the frame that ends the wave
with the ducks still alive. -/
def flyingAway : Game :=
  run exampleConfig midWave
    [Event.mousedown missStage 0 origin, Event.mousedown missStage 0 origin,
     Event.mousedown missStage 0 origin, Event.frame missStage 0]

/-- The session after the license entry was opened and the key pressed again:
the deferred body of the second press is pending. -/
def licenseClosing : Game :=
  run exampleConfig construct
    [Event.load, Event.keypress "Enter" missStage exampleWindow origin 1000,
     Event.licenseTimeout 1040, Event.keypress "Enter" missStage exampleWindow origin 5000]

/-- A session that ended with every duck of the one level shot. -/
def perfectGame : Game :=
  { construct with level := some (exampleLevel 10 3), score := 300, maxScore := 300 }

/-- No level at all: an empty level sequence and no level in the URL. -/
def emptyConfig : Config := { levels := [], urlLevel := none }

/-- The session whose first `startLevel` found no level: the handlers are
bound, `level` is undefined. -/
def noLevelGame : Game := run emptyConfig construct [Event.load]

/-- The session without a level after one click at a point on no link. -/
def shotWithoutLevel : Game :=
  run emptyConfig construct [Event.load, Event.mousedown missStage 0 origin]

/-- A session that has shot every duck of the last level and is in its last wave. -/
def lastWaveWon : Game :=
  { midWave with wave := 3, ducksShot := 30, score := 300, waveEnding := true, bullets := 0 }

/-- The same session with no duck shot. -/
def lastWaveLost : Game :=
  { midWave with wave := 3, ducksShot := 0, score := 0, waveEnding := true, bullets := 0 }

/-- The session right after `onLoad`: the first level is loaded, its intro
animation runs, no wave was started yet. -/
def introGame : Game := run exampleConfig construct [Event.load]

/-- The double nearest to 3.025, the length in seconds of a pause of 3025 ms. -/
def pausedSeconds : ℚ := 6811694436397875 / 2251799813685248

/-- The session paused during the intro of its first level: the body of `pause`
runs at 1000 ms and again at 4025 ms, the first wave starts at 5000 ms. -/
def pausedEarlier : Game :=
  run exampleConfig construct
    [Event.load,
     Event.keypress "p" missStage exampleWindow origin 960, Event.pauseTimeout 1000,
     Event.keypress "p" missStage exampleWindow origin 3985, Event.pauseTimeout 4025,
     Event.introResolved 5000]

/-! ## Properties of the rounding -/

theorem roundHalfEven_err (y : ℚ) : |(roundHalfEven y : ℚ) - y| ≤ 1 / 2 := by
  have h1 := Int.floor_le y
  have h2 := Int.lt_floor_add_one y
  unfold roundHalfEven
  split_ifs with a b c
  · rw [abs_le]; constructor <;> linarith
  · rw [abs_le]; push_cast; constructor <;> linarith
  · rw [abs_le]; constructor <;> linarith
  · rw [abs_le]; push_cast; constructor <;> linarith

theorem roundHalfEven_of_near (y : ℚ) (m : ℤ) (h : |y - m| < 1 / 2) : roundHalfEven y = m := by
  rw [abs_lt] at h
  obtain ⟨h1, h2⟩ := h
  have hf1 := Int.floor_le y
  have hf2 := Int.lt_floor_add_one y
  have key : ∀ k : ℤ, (k : ℚ) - 1 / 2 ≤ y → y ≤ k + 1 / 2 → (y = k + 1 / 2 → k = m) →
      (y = k - 1 / 2 → k = m) → k = m := by
    intro k hk1 hk2 hk3 hk4
    rcases eq_or_lt_of_le hk2 with e | l2
    · exact hk3 e
    · rcases eq_or_lt_of_le hk1 with e | l1
      · exact hk4 (by linarith)
      · have h5 : (k : ℚ) < m + 1 := by linarith
        have h6 : (m : ℚ) < k + 1 := by linarith
        have h3 : k < m + 1 := by exact_mod_cast h5
        have h4 : m < k + 1 := by exact_mod_cast h6
        omega
  unfold roundHalfEven
  split_ifs with a b c
  · apply key
    · linarith
    · linarith
    · intro e; linarith
    · intro e; linarith
  · apply key
    · push_cast; linarith
    · push_cast; linarith
    · intro e; push_cast at e; linarith
    · intro e; push_cast at e; linarith
  · have e : y - ⌊y⌋ = 1 / 2 := le_antisymm (not_lt.mp b) (not_lt.mp a)
    have h5 : (⌊y⌋ : ℚ) < m := by linarith
    have h6 : (m : ℚ) < ⌊y⌋ + 1 := by linarith
    have h3 : ⌊y⌋ < m := by exact_mod_cast h5
    have h4 : m < ⌊y⌋ + 1 := by exact_mod_cast h6
    omega
  · have e : y - ⌊y⌋ = 1 / 2 := le_antisymm (not_lt.mp b) (not_lt.mp a)
    have h5 : (⌊y⌋ : ℚ) < m := by linarith
    have h6 : (m : ℚ) < ⌊y⌋ + 1 := by linarith
    have h3 : ⌊y⌋ < m := by exact_mod_cast h5
    have h4 : m < ⌊y⌋ + 1 := by exact_mod_cast h6
    omega

theorem roundHalfEven_tie_even (m : ℤ) (hm : m % 2 = 0) : roundHalfEven (m + 1 / 2) = m := by
  have hf : ⌊(m : ℚ) + 1 / 2⌋ = m := by
    rw [Int.floor_eq_iff]; constructor <;> linarith
  unfold roundHalfEven
  rw [hf]
  norm_num [hm]

theorem roundHalfEven_intCast (m : ℤ) : roundHalfEven (m : ℚ) = m :=
  roundHalfEven_of_near _ _ (by norm_num)

theorem roundHalfEven_le (y : ℚ) (n : ℤ) (h : y ≤ n) : roundHalfEven y ≤ n := by
  by_cases hy : y = n
  · rw [hy, roundHalfEven_intCast]
  · have hlt : y < n := lt_of_le_of_ne h hy
    have hfl : ⌊y⌋ < n := by
      rw [Int.floor_lt]; exact hlt
    have hr : roundHalfEven y ≤ ⌊y⌋ + 1 := by
      unfold roundHalfEven; split_ifs <;> omega
    omega

theorem ulp_pos (x : ℚ) : 0 < ulp x := by
  unfold ulp; positivity

theorem ulp_of_bounds (x : ℚ) (e : ℤ) (h1 : (2 : ℚ) ^ e ≤ |x|) (h2 : |x| < (2 : ℚ) ^ (e + 1)) :
    ulp x = (2 : ℚ) ^ (e - 52) := by
  have hpos : 0 < |x| := lt_of_lt_of_le (by positivity) h1
  have ha : e ≤ Int.log 2 |x| := by
    rw [← Int.zpow_le_iff_le_log (by norm_num) hpos]; exact_mod_cast h1
  have hb : Int.log 2 |x| < e + 1 := by
    rw [← Int.lt_zpow_iff_log_lt (by norm_num) hpos]; exact_mod_cast h2
  have : Int.log 2 |x| = e := by omega
  unfold ulp; rw [this]

theorem ulp_le (x : ℚ) (hx : x ≠ 0) : ulp x ≤ |x| / 2 ^ 52 := by
  have hpos : 0 < |x| := abs_pos.mpr hx
  have h := Int.zpow_log_le_self (b := 2) (by norm_num) hpos
  unfold ulp
  rw [zpow_sub₀ (by norm_num)]
  have : ((2 : ℕ) : ℚ) = 2 := by norm_num
  rw [this] at h
  have h52 : (2 : ℚ) ^ (52 : ℤ) = 2 ^ 52 := by norm_cast
  rw [h52]
  gcongr

theorem binary64_zero : binary64 0 = 0 := by
  unfold binary64 roundHalfEven; norm_num

/-- One rounding moves a number by at most `2^-53` of its magnitude. -/
theorem binary64_err (x : ℚ) : |binary64 x - x| ≤ |x| / 2 ^ 53 := by
  by_cases hx : x = 0
  · subst hx; rw [binary64_zero]; norm_num
  · have hu := ulp_pos x
    have hr := roundHalfEven_err (x / ulp x)
    have hle := ulp_le x hx
    have e1 : binary64 x - x = ((roundHalfEven (x / ulp x) : ℚ) - x / ulp x) * ulp x := by
      unfold binary64; field_simp
    rw [e1, abs_mul, abs_of_pos hu]
    calc |(roundHalfEven (x / ulp x) : ℚ) - x / ulp x| * ulp x ≤ 1 / 2 * ulp x := by gcongr
      _ ≤ 1 / 2 * (|x| / 2 ^ 52) := by gcongr
      _ = |x| / 2 ^ 53 := by ring

theorem binary64_abs_le (x : ℚ) : |binary64 x| ≤ 2 * |x| := by
  have h := binary64_err x
  have h2 : |binary64 x| ≤ |binary64 x - x| + |x| := by
    have := abs_add (binary64 x - x) x
    simpa using this
  have h3 : |x| / 2 ^ 53 ≤ |x| := by
    apply div_le_self (abs_nonneg x); norm_num
  linarith

/-- A number between two consecutive powers of two rounds to the multiple of the
unit in the last place that `roundHalfEven` selects. -/
theorem binary64_of (x : ℚ) (e m : ℤ) (h1 : (2 : ℚ) ^ e ≤ |x|) (h2 : |x| < (2 : ℚ) ^ (e + 1))
    (hm : roundHalfEven (x / (2 : ℚ) ^ (e - 52)) = m) : binary64 x = m * (2 : ℚ) ^ (e - 52) := by
  unfold binary64
  rw [ulp_of_bounds x e h1 h2, hm]

theorem SUCCESS_RATIO_eq : SUCCESS_RATIO = 5404319552844595 / 2 ^ 53 := by
  unfold SUCCESS_RATIO
  rw [binary64_of (6 / 10) (-1) 5404319552844595 (by norm_num [abs_of_pos])
    (by norm_num [abs_of_pos]) (roundHalfEven_of_near _ _ (by norm_num [abs_lt]))]
  norm_num

theorem ratio_mul_3 : binary64 ( SUCCESS_RATIO * 3) = 8106479329266892 / 2 ^ 52 := by
  rw [SUCCESS_RATIO_eq]
  rw [binary64_of _ 0 8106479329266892 (by norm_num [abs_of_pos]) (by norm_num [abs_of_pos])
    (by
      have h := roundHalfEven_tie_even 8106479329266892 (by norm_num)
      rw [← h]; congr 1; norm_num)]
  norm_num

theorem ratio_mul_3_mul_15 :
    binary64 (binary64 ( SUCCESS_RATIO * 3) * 15) = 7599824371187711 / 2 ^ 48 := by
  rw [ratio_mul_3]
  rw [binary64_of _ 4 7599824371187711 (by norm_num [abs_of_pos]) (by norm_num [abs_of_pos])
    (roundHalfEven_of_near _ _ (by norm_num [abs_lt]))]
  norm_num

theorem ratio_mul_10 : binary64 ( SUCCESS_RATIO * 10) = 6 := by
  rw [SUCCESS_RATIO_eq]
  rw [binary64_of _ 2 6755399441055744 (by norm_num [abs_of_pos]) (by norm_num [abs_of_pos])
    (roundHalfEven_of_near _ _ (by norm_num [abs_lt]))]
  norm_num

theorem ratio_mul_10_mul_3 : binary64 (binary64 ( SUCCESS_RATIO * 10) * 3) = 18 := by
  rw [ratio_mul_10]
  rw [binary64_of _ 4 5066549580791808 (by norm_num [abs_of_pos]) (by norm_num [abs_of_pos])
    (roundHalfEven_of_near _ _ (by norm_num [abs_lt]))]
  norm_num

/-- Two roundings after a factor that is itself a rounded `6/10`: the result is
within `2^-51` of the magnitude of the exact product. -/
theorem mul_mul_err (c d w : ℚ) (hc : |c - 6 / 10| ≤ 6 / 10 / 2 ^ 53) (hc1 : |c| ≤ 1) :
    |binary64 (binary64 (c * d) * w) - 6 / 10 * d * w| ≤ 4 * (|d| * |w|) / 2 ^ 53 := by
  have hD := abs_nonneg d
  have hW := abs_nonneg w
  have hdw : 0 ≤ |d| * |w| := mul_nonneg hD hW
  have hx1 : |c * d| ≤ |d| := by
    rw [abs_mul]; nlinarith
  have ha := binary64_err (c * d)
  have ha2 := binary64_abs_le (c * d)
  have hb1 := binary64_err (binary64 (c * d) * w)
  rw [abs_mul] at hb1
  set a := binary64 (c * d) with ha_def
  set b := binary64 (a * w) with hb_def
  have e : b - 6 / 10 * d * w
      = (b - a * w) + (a - c * d) * w + (c - 6 / 10) * (d * w) := by ring
  have t1 : |b - a * w| ≤ 2 * (|d| * |w|) / 2 ^ 53 := by
    have : |a| * |w| ≤ 2 * |d| * |w| := by
      apply mul_le_mul_of_nonneg_right _ hW; linarith
    calc |b - a * w| ≤ |a| * |w| / 2 ^ 53 := hb1
      _ ≤ 2 * (|d| * |w|) / 2 ^ 53 := by
        apply div_le_div_of_nonneg_right _ (by norm_num); linarith
  have t2 : |(a - c * d) * w| ≤ (|d| * |w|) / 2 ^ 53 := by
    rw [abs_mul]
    have : |a - c * d| ≤ |d| / 2 ^ 53 := by
      calc |a - c * d| ≤ |c * d| / 2 ^ 53 := ha
        _ ≤ |d| / 2 ^ 53 := by
          apply div_le_div_of_nonneg_right hx1 (by norm_num)
    calc |a - c * d| * |w| ≤ |d| / 2 ^ 53 * |w| := by gcongr
      _ = (|d| * |w|) / 2 ^ 53 := by ring
  have t3 : |(c - 6 / 10) * (d * w)| ≤ (|d| * |w|) / 2 ^ 53 := by
    rw [abs_mul, abs_mul]
    calc |c - 6 / 10| * (|d| * |w|)
        ≤ 6 / 10 / 2 ^ 53 * (|d| * |w|) := by gcongr
      _ ≤ (|d| * |w|) / 2 ^ 53 := by
        rw [div_mul_eq_mul_div]
        apply div_le_div_of_nonneg_right _ (by norm_num)
        nlinarith
  rw [e]
  have s1 := abs_add ((b - a * w) + (a - c * d) * w) ((c - 6 / 10) * (d * w))
  have s2 := abs_add (b - a * w) ((a - c * d) * w)
  have : 2 * (|d| * |w|) / 2 ^ 53 + (|d| * |w|) / 2 ^ 53
      + (|d| * |w|) / 2 ^ 53 = 4 * (|d| * |w|) / 2 ^ 53 := by ring
  linarith

/-- The product `0.6 * ducks * waves` in doubles is within `2^-11` of three fifths
of `ducks * waves` as long as that count stays within `2^40`. -/
theorem threshold_err (d w : ℤ) (hb : |d * w| ≤ 2 ^ 40) :
    |binary64 (binary64 ( SUCCESS_RATIO * d) * w) - 6 / 10 * d * w| ≤ 1 / 2 ^ 11 := by
  have hbq : |(d : ℚ)| * |(w : ℚ)| ≤ 2 ^ 40 := by
    rw [← abs_mul]; exact_mod_cast hb
  have hc : abs ( SUCCESS_RATIO - 6 / 10) ≤ 6 / 10 / 2 ^ 53 := by
    have := binary64_err (6 / 10)
    rwa [abs_of_pos (by norm_num : (0 : ℚ) < 6 / 10)] at this
  have hc1 : abs ( SUCCESS_RATIO) ≤ 1 := by
    rw [SUCCESS_RATIO_eq, abs_of_pos (by norm_num)]; norm_num
  have h := mul_mul_err _ d w hc hc1
  have fin : 4 * (|(d : ℚ)| * |(w : ℚ)|) / 2 ^ 53 ≤ 1 / 2 ^ 11 := by
    rw [div_le_div_iff₀ (by norm_num) (by norm_num)]
    nlinarith
  linarith

/-- Rounding does not cross an integer: a number of magnitude below `2^53` that is
at most the integer `n` rounds to a double that is at most `n`. -/
theorem binary64_le_int (x : ℚ) (n : ℤ) (hx : x ≤ n) (hsmall : |x| < 2 ^ 53) :
    binary64 x ≤ n := by
  have he : Int.log 2 |x| ≤ 52 := by
    by_cases h0 : x = 0
    · subst h0; simp
    · have hpos : 0 < |x| := abs_pos.mpr h0
      have : Int.log 2 |x| < 53 := by
        rw [← Int.lt_zpow_iff_log_lt (by norm_num) hpos]
        exact_mod_cast hsmall
      omega
  obtain ⟨k, hk⟩ : ∃ k : ℕ, Int.log 2 |x| - 52 = -(k : ℤ) :=
    ⟨(52 - Int.log 2 |x|).toNat, by omega⟩
  have hulp : ulp x = ((2 : ℚ) ^ k)⁻¹ := by
    unfold ulp; rw [hk, zpow_neg, zpow_natCast]
  have hp : (0 : ℚ) < 2 ^ k := by positivity
  have h1 : x / ulp x ≤ ((n * 2 ^ k : ℤ) : ℚ) := by
    rw [hulp, div_inv_eq_mul]
    push_cast
    exact mul_le_mul_of_nonneg_right hx hp.le
  have h2 := roundHalfEven_le _ _ h1
  have h3 : (roundHalfEven (x / ulp x) : ℚ) ≤ ((n * 2 ^ k : ℤ) : ℚ) := by exact_mod_cast h2
  unfold binary64
  calc (roundHalfEven (x / ulp x) : ℚ) * ulp x
      ≤ ((n * 2 ^ k : ℤ) : ℚ) * ulp x := mul_le_mul_of_nonneg_right h3 (ulp_pos x).le
    _ = n := by rw [hulp]; push_cast; field_simp

theorem percentage_le (g : Game) (hm : 0 < g.maxScore) (h0 : 0 ≤ g.score)
    (h1 : g.score ≤ g.maxScore) : percentage g ≤ 100 := by
  have hmq : (0 : ℚ) < g.maxScore := by exact_mod_cast hm
  have h0q : (0 : ℚ) ≤ g.score := by exact_mod_cast h0
  have h1q : (g.score : ℚ) ≤ g.maxScore := by exact_mod_cast h1
  have hq0 : (0 : ℚ) ≤ (g.score : ℚ) / g.maxScore := div_nonneg h0q hmq.le
  have hq1 : (g.score : ℚ) / g.maxScore ≤ 1 := by
    rw [div_le_one hmq]; exact h1q
  have habs : |(g.score : ℚ) / g.maxScore| ≤ 1 := by
    rw [abs_of_nonneg hq0]; exact hq1
  have ha : binary64 ((g.score : ℚ) / g.maxScore) ≤ ((1 : ℤ) : ℚ) :=
    binary64_le_int _ 1 (by exact_mod_cast hq1) (lt_of_le_of_lt habs (by norm_num))
  have ha2 := binary64_abs_le ((g.score : ℚ) / g.maxScore)
  have hb : |binary64 ((g.score : ℚ) / g.maxScore) * 100| < 2 ^ 53 := by
    rw [abs_mul]
    have : |(100 : ℚ)| = 100 := by norm_num
    rw [this]
    have : |binary64 ((g.score : ℚ) / g.maxScore)| ≤ 2 := by linarith
    calc |binary64 ((g.score : ℚ) / g.maxScore)| * 100 ≤ 2 * 100 := by gcongr
      _ < 2 ^ 53 := by norm_num
  have := binary64_le_int (binary64 ((g.score : ℚ) / g.maxScore) * 100) 100
    (by push_cast at ha ⊢; linarith) hb
  unfold percentage
  exact_mod_cast this

/-- The chain of assignments read as a step function, for every percentage. -/
theorem scoreMessageOf_tiers (p : ℚ) :
    (scoreMessageOf p = some "Flawless victory." ↔ p = 100)
    ∧ (scoreMessageOf p = some "Close to perfection." ↔ 95 < p ∧ p < 100)
    ∧ (scoreMessageOf p = some "Truly impressive score." ↔ 85 < p ∧ p ≤ 95)
    ∧ (scoreMessageOf p = some "Solid score." ↔ 75 < p ∧ p ≤ 85)
    ∧ (scoreMessageOf p = some "Participation award." ↔ 63 < p ∧ p ≤ 75)
    ∧ (scoreMessageOf p = some "Yikes." ↔ p ≤ 63)
    ∧ (p ≤ 100 → ∃ m, scoreMessageOf p = some m) := by
  unfold scoreMessageOf
  dsimp only
  by_cases h63 : p ≤ 63
  · simp only [h63, if_true]
    have : ¬ 63 < p := not_lt.mpr h63
    have : p ≠ 100 := by intro h; rw [h] at h63; norm_num at h63
    have : ¬ 95 < p := by intro h; linarith
    have : ¬ 85 < p := by intro h; linarith
    have : ¬ 75 < p := by intro h; linarith
    simp [*]
  · have g63 : 63 < p := not_le.mp h63
    by_cases h75 : p ≤ 75
    · simp only [h63, h75, if_true, if_false]
      have : p ≠ 100 := by intro h; rw [h] at h75; norm_num at h75
      have : ¬ 95 < p := by intro h; linarith
      have : ¬ 85 < p := by intro h; linarith
      have : ¬ 75 < p := by intro h; linarith
      simp [*]
    · have g75 : 75 < p := not_le.mp h75
      by_cases h85 : p ≤ 85
      · simp only [h63, h75, h85, if_true, if_false]
        have : p ≠ 100 := by intro h; rw [h] at h85; norm_num at h85
        have : ¬ 95 < p := by intro h; linarith
        have : ¬ 85 < p := by intro h; linarith
        simp [*]
      · have g85 : 85 < p := not_le.mp h85
        by_cases h95 : p ≤ 95
        · simp only [h63, h75, h85, h95, if_true, if_false]
          have : p ≠ 100 := by intro h; rw [h] at h95; norm_num at h95
          have : ¬ 95 < p := by intro h; linarith
          simp [*]
        · have g95 : 95 < p := not_le.mp h95
          by_cases h100 : p < 100
          · simp only [h63, h75, h85, h95, h100, if_true, if_false]
            have : p ≠ 100 := ne_of_lt h100
            have : p ≤ 100 := h100.le
            simp [*]
          · by_cases e100 : p = 100
            · subst e100
              norm_num
              decide
            · have : ¬ p ≤ 100 := by
                intro h; exact e100 (le_antisymm h (not_lt.mp h100))
              simp [*]

/-- Evaluation of one rounding: between `2^e` and `2^(e+1)` the double nearest
to `x` is `m * 2^(e-52)` when `x / 2^(e-52)` is nearer to `m` than one half. -/
theorem binary64_eval (x : ℚ) (e m : ℤ) (v : ℚ) (h1 : (2 : ℚ) ^ e ≤ |x|)
    (h2 : |x| < (2 : ℚ) ^ (e + 1)) (hm : |x / (2 : ℚ) ^ (e - 52) - m| < 1 / 2)
    (hv : v = m * (2 : ℚ) ^ (e - 52)) : binary64 x = v := by
  rw [hv]
  exact binary64_of x e m h1 h2 (roundHalfEven_of_near _ _ hm)

theorem binary64_one : binary64 1 = 1 :=
  binary64_eval 1 0 4503599627370496 1 (by norm_num) (by norm_num) (by norm_num [abs_lt])
    (by norm_num)

theorem binary64_hundred : binary64 100 = 100 :=
  binary64_eval 100 6 7036874417766400 100 (by norm_num) (by norm_num) (by norm_num [abs_lt])
    (by norm_num)

theorem binary64_tenth : binary64 (1 / 10) = 3602879701896397 / 36028797018963968 :=
  binary64_eval _ (-4) 7205759403792794 _ (by norm_num [abs_of_pos]) (by norm_num [abs_of_pos])
    (by norm_num [abs_lt]) (by norm_num)

theorem binary64_fifth : binary64 (1 / 5) = 3602879701896397 / 18014398509481984 :=
  binary64_eval _ (-3) 7205759403792794 _ (by norm_num [abs_of_pos]) (by norm_num [abs_of_pos])
    (by norm_num [abs_lt]) (by norm_num)

theorem binary64_three_tenths : binary64 (3 / 10) = 5404319552844595 / 18014398509481984 :=
  binary64_eval _ (-2) 5404319552844595 _ (by norm_num [abs_of_pos]) (by norm_num [abs_of_pos])
    (by norm_num [abs_lt]) (by norm_num)

theorem binary64_tenth_again :
    binary64 (3602879701896397 / 36028797018963968) = 3602879701896397 / 36028797018963968 :=
  binary64_eval _ (-4) 7205759403792794 _ (by norm_num [abs_of_pos]) (by norm_num [abs_of_pos])
    (by norm_num [abs_lt]) (by norm_num)

theorem binary64_fifth_again :
    binary64 (3602879701896397 / 18014398509481984) = 3602879701896397 / 18014398509481984 :=
  binary64_eval _ (-3) 7205759403792794 _ (by norm_num [abs_of_pos]) (by norm_num [abs_of_pos])
    (by norm_num [abs_lt]) (by norm_num)

theorem binary64_difference :
    binary64 (5404319552844595 / 18014398509481984 - 3602879701896397 / 18014398509481984)
      = 900719925474099 / 9007199254740992 :=
  binary64_eval _ (-4) 7205759403792792 _ (by norm_num [abs_of_pos]) (by norm_num [abs_of_pos])
    (by norm_num [abs_lt]) (by norm_num)

/-- The elapsed time before a pause and after the matching resume, each within
a few roundings of `(t1 - ws) / 1000 - P`. -/
theorem elapsed_near_exact (A1 A2 D P : ℚ) (hD : A2 - D = A1) :
    |binary64 (binary64 A1 - P) - (A1 - P)| ≤ (|A1| + |A2| + |D| + |P|) / 2 ^ 50
    ∧ |binary64 (binary64 A2 - binary64 (P + binary64 D)) - (A1 - P)|
        ≤ (|A1| + |A2| + |D| + |P|) / 2 ^ 50 := by
  have nA1 := abs_nonneg A1
  have nA2 := abs_nonneg A2
  have nD := abs_nonneg D
  have nP := abs_nonneg P
  -- one rounding of A1, then of the difference
  have r1 := abs_le.mp (binary64_err A1)
  have m1 := binary64_abs_le A1
  have r2 := abs_le.mp (binary64_err (binary64 A1 - P))
  have s2 := abs_sub (binary64 A1) P
  -- the roundings on the side of the resume
  have r3 := abs_le.mp (binary64_err D)
  have m3 := binary64_abs_le D
  have r4 := abs_le.mp (binary64_err (P + binary64 D))
  have m4 := binary64_abs_le (P + binary64 D)
  have s4 := abs_add P (binary64 D)
  have r5 := abs_le.mp (binary64_err A2)
  have m5 := binary64_abs_le A2
  have r6 := abs_le.mp (binary64_err (binary64 A2 - binary64 (P + binary64 D)))
  have s6 := abs_sub (binary64 A2) (binary64 (P + binary64 D))
  have k53 : (2 : ℚ) ^ 53 = 9007199254740992 := by norm_num
  have k50 : (2 : ℚ) ^ 50 = 1125899906842624 := by norm_num
  rw [k53] at r1 r2 r3 r4 r5 r6
  rw [k50]
  constructor
  · rw [abs_le]
    constructor <;> linarith
  · rw [abs_le]
    constructor <;> linarith

theorem roundHalfEven_neg (y : ℚ) : roundHalfEven (-y) = -roundHalfEven y := by
  by_cases hy : y = ⌊y⌋
  · rw [hy, ← Int.cast_neg, roundHalfEven_intCast, roundHalfEven_intCast]
  · have h1 := Int.floor_le y
    have h2 := Int.lt_floor_add_one y
    have h1' : (⌊y⌋ : ℚ) < y := lt_of_le_of_ne h1 (Ne.symm hy)
    have hf : ⌊-y⌋ = -⌊y⌋ - 1 := by
      rw [Int.floor_eq_iff]; push_cast; constructor <;> linarith
    unfold roundHalfEven
    rw [hf]
    push_cast
    split_ifs <;> first | omega | (exfalso; linarith)

theorem ulp_neg (x : ℚ) : ulp (-x) = ulp x := by
  unfold ulp; rw [abs_neg]

theorem binary64_neg (x : ℚ) : binary64 (-x) = -binary64 x := by
  unfold binary64
  rw [ulp_neg, neg_div, roundHalfEven_neg]
  push_cast
  ring

theorem roundHalfEven_ge (y : ℚ) (n : ℤ) (h : (n : ℚ) ≤ y) : n ≤ roundHalfEven y := by
  have h1 : roundHalfEven (-y) ≤ -n := roundHalfEven_le (-y) (-n) (by push_cast; linarith)
  rw [roundHalfEven_neg] at h1
  omega

theorem binary64_idem_pos (x : ℚ) (hx : 0 < x) : binary64 (binary64 x) = binary64 x := by
  have hpos : 0 < |x| := abs_pos.mpr hx.ne'
  have hax : |x| = x := abs_of_pos hx
  have two : ((2 : ℕ) : ℚ) = 2 := by norm_num
  have h1 : (2 : ℚ) ^ (Int.log 2 |x|) ≤ |x| := by
    have := Int.zpow_log_le_self (b := 2) (by norm_num) hpos
    rwa [two] at this
  have h2 : |x| < (2 : ℚ) ^ (Int.log 2 |x| + 1) := by
    have := Int.lt_zpow_succ_log_self (b := 2) (by norm_num) |x|
    rwa [two] at this
  generalize Int.log 2 |x| = e at h1 h2
  have hu : (0 : ℚ) < 2 ^ (e - 52) := by positivity
  have p1 : (2 : ℚ) ^ e = 2 ^ (52 : ℕ) * 2 ^ (e - 52) := by
    rw [← zpow_natCast, ← zpow_add₀ (by norm_num)]; congr 1; omega
  have p2 : (2 : ℚ) ^ (e + 1) = 2 ^ (53 : ℕ) * 2 ^ (e - 52) := by
    rw [← zpow_natCast, ← zpow_add₀ (by norm_num)]; congr 1; omega
  have p3 : (2 : ℚ) ^ (e + 1 + 1) = 2 ^ (54 : ℕ) * 2 ^ (e - 52) := by
    rw [← zpow_natCast, ← zpow_add₀ (by norm_num)]; congr 1; omega
  have p4 : (2 : ℚ) ^ (e + 1 - 52) = 2 * 2 ^ (e - 52) := by
    have : e + 1 - 52 = 1 + (e - 52) := by omega
    rw [this, zpow_add₀ (by norm_num)]; norm_num
  rw [hax] at h1 h2
  have hy1 : ((2 ^ 52 : ℤ) : ℚ) ≤ x / 2 ^ (e - 52) := by
    rw [le_div_iff₀ hu]; push_cast; linarith
  have hy2 : x / 2 ^ (e - 52) ≤ ((2 ^ 53 : ℤ) : ℚ) := by
    rw [div_le_iff₀ hu]; push_cast; linarith
  have m1 := roundHalfEven_ge _ _ hy1
  have m2 := roundHalfEven_le _ _ hy2
  have hb : binary64 x = (roundHalfEven (x / 2 ^ (e - 52)) : ℚ) * 2 ^ (e - 52) :=
    binary64_of x e _ (by rw [hax]; exact h1) (by rw [hax]; exact h2) rfl
  rw [hb]
  generalize roundHalfEven (x / 2 ^ (e - 52)) = m at m1 m2
  have m1q : ((2 : ℚ) ^ (52 : ℕ)) ≤ (m : ℚ) := by exact_mod_cast m1
  have m2q : (m : ℚ) ≤ ((2 : ℚ) ^ (53 : ℕ)) := by exact_mod_cast m2
  have mpos : (0 : ℚ) < m := lt_of_lt_of_le (by positivity) m1q
  have vpos : (0 : ℚ) < m * 2 ^ (e - 52) := mul_pos mpos hu
  rcases lt_or_eq_of_le m2 with hlt | heq
  · have hltq : (m : ℚ) < ((2 : ℚ) ^ (53 : ℕ)) := by exact_mod_cast hlt
    apply binary64_of _ e m
    · rw [abs_of_pos vpos, p1]; exact mul_le_mul_of_nonneg_right m1q hu.le
    · rw [abs_of_pos vpos, p2]; exact mul_lt_mul_of_pos_right hltq hu
    · rw [mul_div_assoc, div_self hu.ne', mul_one, roundHalfEven_intCast]
  · have hm : (m : ℚ) = 2 ^ (53 : ℕ) := by exact_mod_cast heq
    have hv : (m : ℚ) * 2 ^ (e - 52) = ((2 ^ 52 : ℤ) : ℚ) * 2 ^ (e + 1 - 52) := by
      rw [hm, p4]; push_cast; ring
    rw [hv]
    have vpos2 : (0 : ℚ) < ((2 ^ 52 : ℤ) : ℚ) * 2 ^ (e + 1 - 52) := by positivity
    apply binary64_of _ (e + 1) (2 ^ 52)
    · rw [abs_of_pos vpos2, p2, p4]; push_cast; apply le_of_eq; ring
    · rw [abs_of_pos vpos2, p3, p4]; push_cast; linarith
    · have hu2 : (0 : ℚ) < 2 ^ (e + 1 - 52) := by positivity
      rw [mul_div_assoc, div_self hu2.ne', mul_one, roundHalfEven_intCast]

/-- Rounding a double gives the same double. -/
theorem binary64_idem (x : ℚ) : binary64 (binary64 x) = binary64 x := by
  rcases lt_trichotomy x 0 with h | h | h
  · have := binary64_idem_pos (-x) (by linarith)
    rw [binary64_neg, binary64_neg] at this
    linarith
  · rw [h, binary64_zero, binary64_zero]
  · exact binary64_idem_pos x h

/-- The two roundings of `waveElapsedTime` move it by at most `2^-51` of the
magnitudes involved. -/
theorem elapsed_err (A P : ℚ) :
    |binary64 (binary64 A - P) - (A - P)| ≤ elapsedSlack A P := by
  have nA := abs_nonneg A
  have nP := abs_nonneg P
  have e1 := binary64_err A
  have e2 := binary64_err (binary64 A - P)
  have a1 := binary64_abs_le A
  have t1 : |binary64 A - P| ≤ 2 * |A| + |P| := by
    have := abs_sub (binary64 A) P
    linarith
  have t2 : |binary64 (binary64 A - P) - (A - P)|
      ≤ |binary64 (binary64 A - P) - (binary64 A - P)| + |binary64 A - A| := by
    have := abs_add (binary64 (binary64 A - P) - (binary64 A - P)) (binary64 A - A)
    have e : binary64 (binary64 A - P) - (binary64 A - P) + (binary64 A - A)
        = binary64 (binary64 A - P) - (A - P) := by ring
    rwa [e] at this
  have t3 : |binary64 A - P| / 2 ^ 53 ≤ (2 * |A| + |P|) / 2 ^ 53 :=
    div_le_div_of_nonneg_right t1 (by norm_num)
  unfold elapsedSlack
  have t4 : (2 * |A| + |P|) / 2 ^ 53 + |A| / 2 ^ 53 ≤ (|A| + |P|) / 2 ^ 51 := by
    rw [← add_div, div_le_div_iff₀ (by norm_num) (by norm_num)]
    nlinarith
  linarith

theorem binary64_pausedSeconds : binary64 (3025 / 1000) = pausedSeconds :=
  binary64_eval _ 1 6811694436397875 _ (by norm_num [abs_of_pos]) (by norm_num [abs_of_pos])
    (by norm_num [abs_lt]) (by norm_num [pausedSeconds])

theorem binary64_pausedSeconds_again : binary64 pausedSeconds = pausedSeconds :=
  binary64_eval _ 1 6811694436397875 _ (by norm_num [abs_of_pos, pausedSeconds])
    (by norm_num [abs_of_pos, pausedSeconds])
    (by norm_num [abs_lt, pausedSeconds]) (by norm_num [pausedSeconds])

theorem binary64_16025 : binary64 (16025 / 1000) = 2255318250894131 / 140737488355328 :=
  binary64_eval _ 4 4510636501788262 _ (by norm_num [abs_of_pos]) (by norm_num [abs_of_pos])
    (by norm_num [abs_lt]) (by norm_num)

theorem binary64_16025_less :
    binary64 (2255318250894131 / 140737488355328 - pausedSeconds)
      = 7318349394477055 / 562949953421312 :=
  binary64_eval _ 3 7318349394477055 _ (by norm_num [abs_of_pos, pausedSeconds])
    (by norm_num [abs_of_pos, pausedSeconds])
    (by norm_num [abs_lt, pausedSeconds]) (by norm_num)

/-! ## The invariant is kept by every event -/

theorem levelAt_offers (cfg : Config) (i : Int) (h0 : 0 ≤ i) (h1 : i < cfg.levels.length) :
    ∃ l, levelAt cfg i = some l ∧ cfg.Offers l := by
  have hlt : i.toNat < cfg.levels.length := by omega
  refine ⟨cfg.levels[i.toNat], ?_, Or.inl (List.getElem_mem _)⟩
  simp [levelAt, h0, List.getElem?_eq_getElem hlt]

theorem inv_construct (cfg : Config) : Inv cfg construct := by
  constructor <;> simp [construct, EntriesInside]

theorem EntriesInside.cons {cfg : Config} {g g2 : Game} {c : Call} (h : EntriesInside cfg g)
    (ht : g2.trace = c :: g.trace) (hc : ∀ i, c = Call.startLevel i → i < cfg.levels.length) :
    EntriesInside cfg g2 := by
  intro i hi
  rw [ht, List.mem_cons] at hi
  rcases hi with e | m
  · exact hc i e.symm
  · exact h i m

theorem WaveOver.carry {cfg : Config} {g : Game} (h : WaveOver cfg g) (g2 : Game)
    (e1 : g2.level = g.level) (e2 : g2.loaded = g.loaded) (e3 : g2.introPending = g.introPending)
    (e4 : g2.flyAwayPending = g.flyAwayPending) (e5 : g2.waveEnding = g.waveEnding)
    (e6 : g2.bullets = g.bullets) (e7 : g2.replayButton = g.replayButton)
    (e8 : g.levelIndex ≤ g2.levelIndex)
    (e9 : EntriesInside cfg g → EntriesInside cfg g2) : WaveOver cfg g2 where
  level := by rw [e1]; exact h.level
  loaded := by rw [e2]; exact h.loaded
  intro := by rw [e3]; exact h.intro
  fly := by rw [e4]; exact h.fly
  ending := by rw [e5]; exact h.ending
  empty := by rw [e6]; exact h.empty
  noReplay := by rw [e7]; exact h.noReplay
  idxLo := fun hu => le_trans (h.idxLo hu) e8
  entries := fun hne => e9 (h.entries hne)

theorem startWave_inv (cfg : Config) (g : Game) (now : Int)
    (hlev : ∃ l, g.level = some l ∧ cfg.Offers l) (h1 : g.loaded = true)
    (h2 : g.introPending = 0) (h3 : g.flyAwayPending = 0) (h4 : g.replayButton = none)
    (h6 : cfg.urlLevel = none → 0 ≤ g.levelIndex) (hidx : g.levelIndex < cfg.levels.length)
    (hent : cfg.levels ≠ [] → EntriesInside cfg g) :
    Good cfg g.levelIndex (startWave now g) := by
  obtain ⟨l, hl, hoff⟩ := hlev
  simp only [Good, startWave, hl]
  refine ⟨?_, trivial, h1, fun _ => le_refl _⟩
  constructor <;> simp_all [EntriesInside]
  omega

theorem startLevel_inv (cfg : Config) (g : Game) (h1 : g.loaded = true)
    (h2 : g.introPending = 0) (h3 : g.flyAwayPending = 0) (h4 : g.replayButton = none)
    (h6 : cfg.urlLevel = none → 0 ≤ g.levelIndex) (h7 : g.bullets = 0)
    (hidx : cfg.urlLevel = none → g.levelIndex < cfg.levels.length)
    (hentry : cfg.levels ≠ [] → g.levelIndex < cfg.levels.length)
    (hent : cfg.levels ≠ [] → EntriesInside cfg g) :
    Good cfg g.levelIndex (startLevel cfg g) := by
  cases hu : cfg.urlLevel with
  | some ul =>
    simp only [Good, startLevel, hu]
    refine ⟨?_, trivial, h1, fun hne => by
      have := hentry hne
      show g.levelIndex ≤ (cfg.levels.length : Int) - 1
      omega⟩
    constructor <;> simp_all [Config.Offers, EntriesInside]
  | none =>
    obtain ⟨l2, hl2, hoff2⟩ := levelAt_offers cfg g.levelIndex (h6 hu) (hidx hu)
    simp only [Good, startLevel, hu, hl2]
    refine ⟨?_, trivial, h1, fun _ => le_refl _⟩
    constructor <;> simp_all [Config.Offers, EntriesInside]
    omega

theorem over_inv (cfg : Config) (g : Game) (h : WaveOver cfg g) (hw : g.wave = 0)
    (hi : g.levelIndex ≤ cfg.levels.length) (msg : Option String) (status : String)
    (hst : status = "You Win!" ∨ status = "You Lose!") (c : Call)
    (hc : ∀ i, c ≠ Call.startLevel i) :
    Inv cfg (showReplay msg { g with gameStatus := status, trace := c :: g.trace }) := by
  obtain ⟨l, hl, hoff⟩ := h.level
  have h1 := h.loaded
  have h2 := h.intro
  have h3 := h.fly
  have h6 := h.idxLo
  have h7 := h.empty
  have h8 := h.ending
  have h9 := h.entries
  simp only [showReplay]
  constructor <;> simp_all [EntriesInside]
  intro hne i hi
  rcases hi with e | m
  · exact absurd e.symm (hc i)
  · exact h9 hne i m

theorem goToNextLevel_inv (cfg : Config) (g : Game) (h : WaveOver cfg g) (hw : g.wave = 0)
    (hidx : g.levelIndex < cfg.levels.length) :
    Good cfg g.levelIndex (goToNextLevel cfg g) := by
  obtain ⟨l, hl, hoff⟩ := h.level
  have h6 := h.idxLo
  have h1 : WaveOver cfg
      { g with levelIndex := g.levelIndex + 1, trace := Call.goToNextLevel :: g.trace } :=
    h.carry _ rfl rfl rfl rfl rfl rfl rfl (by simp)
      (fun he => he.cons rfl (by intro i hi; cases hi))
  unfold goToNextLevel
  cases hb : decide (binary64 (binary64 ( SUCCESS_RATIO * l.ducks) * l.waves) < (g.ducksShot : ℚ))
  · have hwon : levelWon
        { g with levelIndex := g.levelIndex + 1, trace := Call.goToNextLevel :: g.trace }
        = some false := by
      simp only [levelWon, hl, Option.map_some', hb]
    simp only [hwon]
    exact ⟨over_inv cfg _ h1 hw (by simp; omega) _ _ (Or.inr rfl) _ (by intro i hi; cases hi),
      rfl, h.loaded, fun _ => by show g.levelIndex ≤ g.levelIndex + 1; omega⟩
  · have hwon : levelWon
        { g with levelIndex := g.levelIndex + 1, trace := Call.goToNextLevel :: g.trace }
        = some true := by
      simp only [levelWon, hl, Option.map_some', hb]
    simp only [hwon]
    split_ifs with hlt
    · obtain ⟨a, b, c, d⟩ := startLevel_inv cfg _ h1.loaded h1.intro h1.fly h1.noReplay h1.idxLo
        h1.empty (fun _ => hlt) (fun _ => hlt) h1.entries
      exact ⟨a, b, c, fun hne => le_trans (by show g.levelIndex ≤ g.levelIndex + 1; omega) (d hne)⟩
    · exact ⟨over_inv cfg _ h1 hw (by simp; omega) _ _ (Or.inl rfl) _ (by intro i hi; cases hi),
        rfl, h.loaded, fun _ => by show g.levelIndex ≤ g.levelIndex + 1; omega⟩

theorem goToNextWave_inv (cfg : Config) (g : Game) (now : Int) (h : WaveOver cfg g)
    (hidx : g.levelIndex < cfg.levels.length) :
    Good cfg g.levelIndex (goToNextWave cfg now g) := by
  obtain ⟨l, hl, hoff⟩ := h.level
  have h1 : WaveOver cfg { g with trace := Call.goToNextWave :: g.trace } :=
    h.carry _ rfl rfl rfl rfl rfl rfl rfl (le_refl _)
      (fun he => he.cons rfl (by intro i hi; cases hi))
  unfold goToNextWave
  split
  · rename_i hn; rw [hl] at hn; cases hn
  · rename_i l2 hl2
    dsimp only
    split_ifs with hlast
    · unfold endLevel
      exact goToNextLevel_inv cfg _ (h1.carry _ rfl rfl rfl rfl rfl rfl rfl (le_refl _)
        (fun he => he.cons rfl (by intro i hi; cases hi))) rfl hidx
    · exact startWave_inv cfg _ now h1.level h1.loaded h1.intro h1.fly h1.noReplay h1.idxLo hidx
        h1.entries

/-- The invariant only reads a few fields: a state that agrees on them with a
loaded state of the invariant, and keeps the facts about ammunition and about
the recorded entries, has it. -/
theorem Inv.transfer {cfg : Config} {g : Game} (hi : Inv cfg g) (hload : g.loaded = true)
    (g2 : Game) (e1 : g2.level = g.level) (e2 : g2.loaded = g.loaded)
    (e3 : g2.levelIndex = g.levelIndex) (e4 : g2.replayButton = g.replayButton)
    (e5 : g2.introPending = g.introPending) (e6 : g2.flyAwayPending = g.flyAwayPending)
    (e7 : g2.wave = g.wave) (e8 : g2.waveEnding = g.waveEnding)
    (e9 : g2.replayButton.isSome = true → g2.gameStatus = g.gameStatus)
    (hb1 : g2.waveEnding = true → g2.bullets = 0)
    (hb2 : (∀ l, cfg.Offers l → 0 ≤ l.bullets) → 0 ≤ g2.bullets)
    (ht : EntriesInside cfg g → EntriesInside cfg g2) : Inv cfg g2 where
  fresh := by rw [e2, hload]; intro h; cases h
  levelOk := by rw [e1]; intro _; exact hi.levelOk hload
  idxLo := by rw [e3]; exact hi.idxLo
  idxHi := by rw [e3]; exact hi.idxHi
  idxIn := by rw [e3, e4, e2]; exact hi.idxIn
  pendLe := by rw [e5, e6]; exact hi.pendLe
  introWave := by rw [e5, e7]; exact hi.introWave
  flyEnding := by rw [e6, e8]; exact hi.flyEnding
  over := by
    intro h
    rw [e9 h, e5, e6, e7, e8]
    rw [e4] at h
    exact hi.over h
  endingEmpty := hb1
  bulletsNonneg := hb2
  animLoaded := by rw [e2, hload]; intro _; rfl
  entries := fun hne => ht (hi.entries hne)

/-- A method that only touches flags, pending timeouts and the trace. -/
theorem Inv.quiet {cfg : Config} {g : Game} (hi : Inv cfg g) (hload : g.loaded = true)
    (g2 : Game) (e1 : g2.level = g.level) (e2 : g2.loaded = g.loaded)
    (e3 : g2.levelIndex = g.levelIndex) (e4 : g2.replayButton = g.replayButton)
    (e5 : g2.introPending = g.introPending) (e6 : g2.flyAwayPending = g.flyAwayPending)
    (e7 : g2.wave = g.wave) (e8 : g2.waveEnding = g.waveEnding)
    (e9 : g2.gameStatus = g.gameStatus) (e10 : g2.bullets = g.bullets)
    (ht : EntriesInside cfg g → EntriesInside cfg g2) :
    Inv cfg g2 ∧ g.levelIndex ≤ g2.levelIndex :=
  ⟨hi.transfer hload g2 e1 e2 e3 e4 e5 e6 e7 e8 (fun _ => e9)
    (by rw [e8, e10]; exact hi.endingEmpty) (by rw [e10]; exact hi.bulletsNonneg) ht, e3.ge⟩

theorem Inv.noReplay_of_wave {cfg : Config} {g : Game} (hi : Inv cfg g) (hw : g.wave ≠ 0) :
    g.replayButton = none := by
  cases hh : g.replayButton with
  | none => rfl
  | some t => exact absurd (hi.over (by simp [hh])).1 hw

theorem Inv.noReplay_of_pending {cfg : Config} {g : Game} (hi : Inv cfg g)
    (hp : 0 < g.introPending + g.flyAwayPending) : g.replayButton = none := by
  cases hh : g.replayButton with
  | none => rfl
  | some t =>
    have := hi.over (by simp [hh])
    omega

theorem Inv.loaded_of_ne {cfg : Config} {g : Game} (hi : Inv cfg g) (hne : g ≠ construct) :
    g.loaded = true := by
  cases hh : g.loaded with
  | true => rfl
  | false => exact absurd (hi.fresh hh) hne

theorem endWave_inv (cfg : Config) (g : Game) (st : Stage) (now : Int) (hi : Inv cfg g)
    (hload : g.loaded = true) (hw : g.wave ≠ 0) (he : g.waveEnding = false) :
    Good cfg g.levelIndex (endWave cfg st now g) := by
  obtain ⟨l, hl, hoff⟩ := hi.levelOk hload
  have hip : g.introPending = 0 := by
    by_contra h; exact hw (hi.introWave (by omega))
  have hfp : g.flyAwayPending = 0 := by
    by_contra h; have := hi.flyEnding (by omega); simp [he] at this
  have hrb := hi.noReplay_of_wave hw
  have hidx := hi.idxIn hrb hload
  have hent : EntriesInside cfg g → EntriesInside cfg
      { g with waveEnding := true, bullets := 0, trace := Call.endWave :: g.trace } :=
    fun he => he.cons rfl (by intro i hi; cases hi)
  unfold endWave
  split_ifs with hd
  · split
    · rename_i hn; rw [hl] at hn; cases hn
    · refine ⟨?_, rfl, hload, fun _ => le_refl _⟩
      have h1 := hi.idxLo
      have h2 := hi.idxHi
      have h3 := hi.entries
      constructor <;> simp_all [EntriesInside]
  · have hwo : WaveOver cfg
        { g with waveEnding := true, bullets := 0, trace := Call.endWave :: g.trace } :=
      { level := ⟨l, hl, hoff⟩, loaded := hload, intro := hip, fly := hfp, ending := rfl,
        empty := rfl, noReplay := hrb, idxLo := hi.idxLo,
        entries := fun hne => hent (hi.entries hne) }
    exact goToNextWave_inv cfg _ now hwo hidx

theorem Next.refl {cfg : Config} {g : Game} (hi : Inv cfg g) : Next cfg g g :=
  ⟨hi, fun _ => le_refl _⟩

theorem Next.of_quiet {cfg : Config} {g g2 : Game}
    (h : Inv cfg g2 ∧ g.levelIndex ≤ g2.levelIndex) : Next cfg g g2 :=
  ⟨h.1, fun _ => h.2⟩

theorem animate_inv (cfg : Config) (g : Game) (st : Stage) (now : Int)
    (hi : Inv cfg g) (hen : g.animating = true) : Next cfg g (animate cfg st now g).game := by
  have hload := hi.animLoaded hen
  unfold animate
  split_ifs with hp hw
  · exact Next.refl hi
  · have hw0 : g.wave ≠ 0 ∧ g.waveEnding = false := by
      unfold shouldWaveEnd at hw
      split_ifs at hw with hc
      push_neg at hc
      exact ⟨hc.1, by simpa using hc.2.1⟩
    obtain ⟨h1, h2, h3, h4⟩ := endWave_inv cfg g st now hi hload hw0.1 hw0.2
    dsimp only
    rw [h2]
    exact ⟨h1.transfer h3 _ rfl rfl rfl rfl rfl rfl rfl rfl (fun _ => rfl) h1.endingEmpty
      h1.bulletsNonneg (fun h => h), h4⟩
  · exact Next.refl hi

theorem flyAwayDone_inv (cfg : Config) (g : Game) (now : Int) (hi : Inv cfg g)
    (hen : 0 < g.flyAwayPending) : Next cfg g (flyAwayDone cfg now g).game := by
  have hload : g.loaded = true := hi.loaded_of_ne (by
    intro h; rw [h] at hen; simp [construct] at hen)
  have hp := hi.pendLe
  have hrb := hi.noReplay_of_pending (by omega)
  have hwe := hi.flyEnding hen
  have hwo : WaveOver cfg { g with flyAwayPending := g.flyAwayPending - 1 } :=
    { level := hi.levelOk hload, loaded := hload, intro := by show g.introPending = 0; omega,
      fly := by show g.flyAwayPending - 1 = 0; omega, ending := hwe,
      empty := hi.endingEmpty hwe, noReplay := hrb, idxLo := hi.idxLo, entries := hi.entries }
  have h := goToNextWave_inv cfg _ now hwo (hi.idxIn hrb hload)
  exact ⟨h.1, h.2.2.2⟩

theorem introDone_inv (cfg : Config) (g : Game) (now : Int) (hi : Inv cfg g)
    (hen : 0 < g.introPending) : Next cfg g (introDone now g).game := by
  have hload : g.loaded = true := hi.loaded_of_ne (by
    intro h; rw [h] at hen; simp [construct] at hen)
  have hp := hi.pendLe
  have hrb := hi.noReplay_of_pending (by omega)
  have h := startWave_inv cfg { g with gameStatus := "", introPending := g.introPending - 1 } now
    (hi.levelOk hload) hload (by show g.introPending - 1 = 0; omega)
    (by show g.flyAwayPending = 0; omega) hrb hi.idxLo (hi.idxIn hrb hload) hi.entries
  exact ⟨h.1, h.2.2.2⟩

theorem onLoad_inv (cfg : Config) (hs : cfg.Startable) (g : Game) (hi : Inv cfg g)
    (hen : g.loaded = false) : Next cfg g (onLoad cfg g).game := by
  have hg := hi.fresh hen
  subst hg
  have hgood : Good cfg 0 (startLevel cfg { construct with loaded := true }) := by
    apply startLevel_inv <;> try rfl
    · intro _; simp [construct]
    · intro hu
      rcases hs with h | h
      · simpa [construct] using List.length_pos.mpr h
      · simp [hu] at h
    · intro hne
      simpa [construct] using List.length_pos.mpr hne
    · intro _ i hi
      simp [construct] at hi
  obtain ⟨h1, h2, h3, h4⟩ := hgood
  unfold onLoad
  dsimp only
  rw [h2]
  exact ⟨h1.transfer h3 _ rfl rfl rfl rfl rfl rfl rfl rfl (fun _ => rfl) h1.endingEmpty
    h1.bulletsNonneg (fun h => h), h4⟩

theorem fireOrReplay_inv (cfg : Config) (g : Game) (st : Stage) (now : Int) (p : Point)
    (hi : Inv cfg g) (hload : g.loaded = true) : Next cfg g (fireOrReplay st now p g).game := by
  obtain ⟨l, hl, hoff⟩ := hi.levelOk hload
  unfold fireOrReplay
  split_ifs with hfire hrep
  · simp only [Bool.and_eq_true, Bool.not_eq_true', outOfAmmo, hl, Option.isSome_some,
      Bool.true_and, decide_eq_false_iff_not] at hfire
    obtain ⟨⟨⟨_, hb⟩, _⟩, _⟩ := hfire
    have hne : g.waveEnding = false := by
      cases hh : g.waveEnding with
      | false => rfl
      | true => exact absurd (hi.endingEmpty hh) hb
    simp only [shoot, hl, updateScore]
    refine ⟨hi.transfer hload _ hl.symm rfl rfl rfl rfl rfl rfl rfl (fun _ => rfl) ?_ ?_
      (fun he => he.cons rfl (by intro i hi; cases hi)), fun _ => le_refl _⟩
    · intro h; rw [hne] at h; cases h
    · intro h
      have := hi.bulletsNonneg h
      show 0 ≤ g.bullets - 1
      omega
  · exact Next.of_quiet (hi.quiet hload _ rfl rfl rfl rfl rfl rfl rfl rfl rfl rfl
      (fun he => he.cons rfl (by intro i hi; cases hi)))
  · exact Next.refl hi

theorem dispatch_inv (cfg : Config) (g : Game) (st : Stage) (now : Int) (p : Point)
    (hi : Inv cfg g) (hload : g.loaded = true) : Next cfg g (dispatch st now p g).game := by
  unfold dispatch
  split_ifs
  · exact Next.of_quiet (hi.quiet hload _ rfl rfl rfl rfl rfl rfl rfl rfl rfl rfl
      (fun he => he.cons rfl (by intro i hi; cases hi)))
  · exact Next.of_quiet (hi.quiet hload _ rfl rfl rfl rfl rfl rfl rfl rfl rfl rfl
      (fun he => he.cons rfl (by intro i hi; cases hi)))
  · exact Next.of_quiet (hi.quiet hload _ rfl rfl rfl rfl rfl rfl rfl rfl rfl rfl
      (fun he => he.cons rfl (by intro i hi; cases hi)))
  · exact Next.of_quiet (hi.quiet hload _ rfl rfl rfl rfl rfl rfl rfl rfl rfl rfl
      (fun he => he.cons rfl (by intro i hi; cases hi)))
  · exact Next.refl hi
  · exact Next.of_quiet (hi.quiet hload _ rfl rfl rfl rfl rfl rfl rfl rfl rfl rfl
      (fun he => he.cons rfl (by intro i hi; cases hi)))
  · exact fireOrReplay_inv cfg g st now p hi hload

theorem keypress_inv (cfg : Config) (g : Game) (key : String) (st : Stage) (w : Window)
    (mouse : Point) (now : Int) (hi : Inv cfg g) (hload : g.loaded = true) :
    Next cfg g (keypress key st w mouse now g).game := by
  unfold keypress
  split_ifs
  · exact Next.of_quiet (hi.quiet hload _ rfl rfl rfl rfl rfl rfl rfl rfl rfl rfl
      (fun he => he.cons rfl (by intro i hi; cases hi)))
  · exact Next.of_quiet (hi.quiet hload _ rfl rfl rfl rfl rfl rfl rfl rfl rfl rfl
      (fun he => he.cons rfl (by intro i hi; cases hi)))
  · unfold openLevelCreator
    dsimp only
    split_ifs
    · exact Next.of_quiet (hi.quiet hload _ rfl rfl rfl rfl rfl rfl rfl rfl rfl rfl
        (fun he => he.cons rfl (by intro i hi; cases hi)))
    · have h1 := hi.quiet hload { g with trace := Call.openLevelCreator :: g.trace }
        rfl rfl rfl rfl rfl rfl rfl rfl rfl rfl (fun he => he.cons rfl (by intro i hi; cases hi))
      exact Next.of_quiet (h1.1.quiet hload _ rfl rfl rfl rfl rfl rfl rfl rfl rfl rfl
        (fun he => he.cons rfl (by intro i hi; cases hi)))
  · exact Next.of_quiet (hi.quiet hload _ rfl rfl rfl rfl rfl rfl rfl rfl rfl rfl
      (fun he => he.cons rfl (by intro i hi; cases hi)))
  · exact Next.of_quiet (hi.quiet hload _ rfl rfl rfl rfl rfl rfl rfl rfl rfl rfl
      (fun he => he.cons rfl (by intro i hi; cases hi)))
  · exact Next.of_quiet (hi.quiet hload _ rfl rfl rfl rfl rfl rfl rfl rfl rfl rfl
      (fun he => he.cons rfl (by intro i hi; cases hi)))
  · exact dispatch_inv cfg g st now mouse hi hload
  · exact dispatch_inv cfg g st now _ hi hload
  · exact Next.refl hi

theorem timeout_loaded {cfg : Config} {g : Game} (hi : Inv cfg g)
    (hen : 0 < g.pauseTimeouts ∨ 0 < g.licenseTimeouts) : g.loaded = true :=
  hi.loaded_of_ne (by
    intro h; rw [h] at hen; simp [construct] at hen)

/-- Every enabled event preserves the invariant and does not decrease the
level index. -/
theorem step_inv (cfg : Config) (hs : cfg.Startable) (g : Game) (ev : Event) (hi : Inv cfg g)
    (hen : enabled g ev = true) : Next cfg g (step cfg g ev) := by
  cases ev with
  | load => exact onLoad_inv cfg hs g hi (by simpa [enabled] using hen)
  | mousedown st now p => exact dispatch_inv cfg g st now p hi (by simpa [enabled] using hen)
  | keypress key st w mouse now =>
    exact keypress_inv cfg g key st w mouse now hi (by simpa [enabled] using hen)
  | blink st w now isBlink =>
    have hload : g.loaded = true := by simpa [enabled] using hen
    show Next cfg g (onBlink st w now isBlink g).game
    unfold onBlink
    split_ifs
    · exact fireOrReplay_inv cfg g st now _ hi hload
    · exact Next.refl hi
  | frame st now => exact animate_inv cfg g st now hi (by simpa [enabled] using hen)
  | pauseTimeout now =>
    have hload := timeout_loaded hi (Or.inl (by simpa [enabled] using hen))
    show Next cfg g (pauseBody now _)
    unfold pauseBody
    split_ifs
    · exact Next.of_quiet (hi.quiet hload _ rfl rfl rfl rfl rfl rfl rfl rfl rfl rfl (fun h => h))
    · exact Next.of_quiet (hi.quiet hload _ rfl rfl rfl rfl rfl rfl rfl rfl rfl rfl (fun h => h))
  | licenseTimeout now =>
    have hload := timeout_loaded hi (Or.inr (by simpa [enabled] using hen))
    show Next cfg g (licenseKeyBody now _)
    unfold licenseKeyBody
    split_ifs
    · exact Next.of_quiet (hi.quiet hload _ rfl rfl rfl rfl rfl rfl rfl rfl rfl rfl (fun h => h))
    · exact Next.of_quiet (hi.quiet hload _ rfl rfl rfl rfl rfl rfl rfl rfl rfl rfl (fun h => h))
  | introResolved now => exact introDone_inv cfg g now hi (by simpa [enabled] using hen)
  | flyAwayResolved now => exact flyAwayDone_inv cfg g now hi (by simpa [enabled] using hen)

theorem reachable_inv (cfg : Config) (hs : cfg.Startable) (g : Game) (hr : Reachable cfg g) :
    Inv cfg g := by
  induction hr with
  | init => exact inv_construct cfg
  | step g ev _ hen ih => exact (step_inv cfg hs g ev ih hen).1

/-! ## A session without any level -/

theorem Stuck.keep {g : Game} (h : Stuck g) (g2 : Game) (e1 : g2.loaded = g.loaded)
    (e2 : g2.level = g.level) (e3 : g2.waveEnding = g.waveEnding)
    (e4 : g2.animating = g.animating) (e5 : g2.introPending = g.introPending)
    (e6 : g2.flyAwayPending = g.flyAwayPending) : Stuck g2 where
  loaded := by rw [e1]; exact h.loaded
  level := by rw [e2]; exact h.level
  ending := by rw [e3]; exact h.ending
  anim := by rw [e4]; exact h.anim
  intro := by rw [e5]; exact h.intro
  fly := by rw [e6]; exact h.fly

theorem fireOrReplay_stuck (g : Game) (st : Stage) (now : Int) (p : Point) (h : Stuck g) :
    Stuck (fireOrReplay st now p g).game := by
  unfold fireOrReplay
  split_ifs
  · simp only [shoot, h.level]
    exact h.keep _ rfl h.level.symm rfl rfl rfl rfl
  · exact h.keep _ rfl rfl rfl rfl rfl rfl
  · exact h

theorem dispatch_stuck (g : Game) (st : Stage) (now : Int) (p : Point) (h : Stuck g) :
    Stuck (dispatch st now p g).game := by
  unfold dispatch
  split_ifs
  all_goals first
    | exact h.keep _ rfl rfl rfl rfl rfl rfl
    | exact fireOrReplay_stuck g st now p h

theorem keypress_stuck (g : Game) (key : String) (st : Stage) (w : Window) (mouse : Point)
    (now : Int) (h : Stuck g) : Stuck (keypress key st w mouse now g).game := by
  unfold keypress
  split_ifs
  all_goals first
    | exact h.keep _ rfl rfl rfl rfl rfl rfl
    | exact dispatch_stuck g st now _ h
    | (unfold openLevelCreator; dsimp only; split_ifs <;>
        exact h.keep _ rfl rfl rfl rfl rfl rfl)

/-- Without any level the session never leaves the state in which the first
`startLevel` threw. -/
theorem reachable_stuck (cfg : Config) (hns : ¬ cfg.Startable) (g : Game)
    (hr : Reachable cfg g) : g = construct ∨ Stuck g := by
  have hl : cfg.levels = [] := by
    by_contra h; exact hns (Or.inl h)
  have hu : cfg.urlLevel = none := by
    cases hh : cfg.urlLevel with
    | none => rfl
    | some l => exact absurd (Or.inr (by simp [hh])) hns
  induction hr with
  | init => exact Or.inl rfl
  | step g ev _ hen ih =>
    right
    rcases ih with ih | ih
    · subst ih
      cases ev with
      | load =>
        show Stuck (onLoad cfg construct).game
        simp only [onLoad, startLevel, hu, levelAt, hl, construct]
        constructor <;> simp
      | _ => simp [enabled, construct] at hen
    · cases ev with
      | load => simp [enabled, ih.loaded] at hen
      | mousedown st now p => exact dispatch_stuck g st now p ih
      | keypress key st w mouse now => exact keypress_stuck g key st w mouse now ih
      | blink st w now isBlink =>
        show Stuck (onBlink st w now isBlink g).game
        unfold onBlink
        split_ifs
        · exact fireOrReplay_stuck g st now _ ih
        · exact ih
      | frame st now => simp [enabled, ih.anim] at hen
      | pauseTimeout now =>
        show Stuck (pauseBody now _)
        unfold pauseBody
        split_ifs <;> exact ih.keep _ rfl rfl rfl rfl rfl rfl
      | licenseTimeout now =>
        show Stuck (licenseKeyBody now _)
        unfold licenseKeyBody
        split_ifs <;> exact ih.keep _ rfl rfl rfl rfl rfl rfl
      | introResolved now => simp [enabled, ih.intro] at hen
      | flyAwayResolved now => simp [enabled, ih.fly] at hen

theorem reachable_ending (cfg : Config) (g : Game) (hr : Reachable cfg g)
    (he : g.waveEnding = true) : cfg.Startable := by
  by_contra hns
  rcases reachable_stuck cfg hns g hr with h | h
  · rw [h] at he; simp [construct] at he
  · rw [h.ending] at he; cases he

/-! ## Shots that are not accepted -/

theorem fireOrReplay_sameTally (g : Game) (st : Stage) (now : Int) (p : Point)
    (h : outOfAmmo g = true) : SameTally g (fireOrReplay st now p g).game := by
  unfold fireOrReplay
  simp only [h, Bool.not_true, Bool.and_false, Bool.false_and, Bool.false_eq_true, if_false]
  split_ifs <;> exact ⟨rfl, rfl, rfl, rfl⟩

theorem dispatch_sameTally (g : Game) (st : Stage) (now : Int) (p : Point)
    (h : outOfAmmo g = true) : SameTally g (dispatch st now p g).game := by
  unfold dispatch
  split_ifs
  all_goals first
    | exact ⟨rfl, rfl, rfl, rfl⟩
    | exact fireOrReplay_sameTally g st now p h

theorem keypress_sameTally (g : Game) (key : String) (st : Stage) (w : Window) (mouse : Point)
    (now : Int) (h : outOfAmmo g = true) : SameTally g (keypress key st w mouse now g).game := by
  unfold keypress
  split_ifs
  all_goals first
    | exact ⟨rfl, rfl, rfl, rfl⟩
    | exact dispatch_sameTally g st now _ h
    | (unfold openLevelCreator; dsimp only; split_ifs <;> exact ⟨rfl, rfl, rfl, rfl⟩)

theorem onBlink_sameTally (g : Game) (st : Stage) (w : Window) (now : Int) (isBlink : Bool)
    (h : outOfAmmo g = true) : SameTally g (onBlink st w now isBlink g).game := by
  unfold onBlink
  split_ifs
  · exact fireOrReplay_sameTally g st now _ h
  · exact ⟨rfl, rfl, rfl, rfl⟩

theorem outOfAmmo_of_empty (g : Game) (hl : g.level.isSome = true) (hb : g.bullets = 0) :
    outOfAmmo g = true := by
  simp [outOfAmmo, hl, hb]

/-! ## The concrete sessions, evaluated -/

theorem midWave_eq : midWave =
    { construct with
      loaded := true, animating := true, level := some (exampleLevel 10 3), maxScore := 300,
      wave := 1, waveStartTime := some 0, bullets := 3, ducksShotThisWave := some 0,
      trace := [Call.startWave, Call.startLevel 0] } := by
  simp [midWave, run, step, handle, onLoad, startLevel, construct, exampleConfig, levelAt,
    introDone, startWave, exampleLevel]

theorem reachable_midWave : Reachable exampleConfig midWave :=
  Reachable.step _ _ (Reachable.step _ _ Reachable.init rfl) rfl

theorem exampleConfig_startable : exampleConfig.Startable :=
  Or.inl (by simp [exampleConfig])

theorem flyingAway_eq : flyingAway =
    { construct with
      loaded := true, animating := true, level := some (exampleLevel 10 3), maxScore := 300,
      wave := 1, waveStartTime := some 0, bullets := 0, ducksShotThisWave := some 0,
      waveEnding := true, ducksMissed := 10, flyAwayPending := 1,
      trace := [Call.endWave, Call.gunSound, Call.gunSound, Call.gunSound, Call.startWave,
        Call.startLevel 0] } := by
  rw [flyingAway, midWave_eq]
  simp [run, step, handle, handleClick, dispatch, fireOrReplay, outOfAmmo, shouldWaveEnd,
    isWaveTimeUp, waveElapsedTime, secondsSince, binary64_zero, shoot, updateScore, animate,
    endWave, addDucksMissed, missStage, construct, exampleLevel]

theorem reachable_flyingAway : Reachable exampleConfig flyingAway := by
  have e1 : step exampleConfig midWave (Event.mousedown missStage 0 origin)
      = { midWave with bullets := 2, trace := Call.gunSound :: midWave.trace } := by
    rw [midWave_eq]
    simp [step, handle, handleClick, dispatch, fireOrReplay, outOfAmmo, shouldWaveEnd,
      isWaveTimeUp, waveElapsedTime, secondsSince, binary64_zero, shoot, updateScore,
      missStage, construct, exampleLevel]
  have r1 := Reachable.step _ (Event.mousedown missStage 0 origin) reachable_midWave
    (by rw [midWave_eq]; rfl)
  have r2 := Reachable.step _ (Event.mousedown missStage 0 origin) r1 (by rw [e1, midWave_eq]; rfl)
  have r3 := Reachable.step _ (Event.mousedown missStage 0 origin) r2 (by
    rw [e1, midWave_eq]
    simp [enabled, step, handle, handleClick, dispatch, fireOrReplay, outOfAmmo, shouldWaveEnd,
      isWaveTimeUp, waveElapsedTime, secondsSince, binary64_zero, shoot, updateScore,
      missStage, construct, exampleLevel])
  have r4 := Reachable.step _ (Event.frame missStage 0) r3 (by
    rw [e1, midWave_eq]
    simp [enabled, step, handle, handleClick, dispatch, fireOrReplay, outOfAmmo, shouldWaveEnd,
      isWaveTimeUp, waveElapsedTime, secondsSince, binary64_zero, shoot, updateScore,
      missStage, construct, exampleLevel])
  exact r4

theorem elapsed_before_pause :
    waveElapsedTime 100 midWave = some (3602879701896397 / 36028797018963968) := by
  rw [midWave_eq]
  simp only [waveElapsedTime, secondsSince, construct, Option.map_some']
  have : (((100 - 0 : Int) : ℚ) / 1000) = 1 / 10 := by norm_num
  rw [this, binary64_tenth, sub_zero, binary64_tenth_again]

theorem elapsed_after_resume :
    waveElapsedTime 300 (pauseBody 300 (pauseBody 100 midWave))
      = some (900719925474099 / 9007199254740992) := by
  rw [midWave_eq]
  simp only [waveElapsedTime, pauseBody, addTimePaused, secondsSince, construct,
    Option.map_some', Bool.false_eq_true, if_false, if_true]
  have e1 : (((300 - 100 : Int) : ℚ) / 1000) = 1 / 5 := by norm_num
  have e2 : (((300 - 0 : Int) : ℚ) / 1000) = 3 / 10 := by norm_num
  rw [e1, e2, binary64_fifth, binary64_three_tenths, zero_add, binary64_fifth_again,
    binary64_difference]

theorem percentage_perfectGame : percentage perfectGame = 100 := by
  simp only [percentage, perfectGame, construct]
  have : ((300 : Int) : ℚ) / ((300 : Int) : ℚ) = 1 := by norm_num
  rw [this, binary64_one, one_mul, binary64_hundred]

/-! ## The end of a level, the tally of a wave, the accumulated pause -/

theorem endLevel_eq (cfg : Config) (g : Game) :
    endLevel cfg g =
      match levelWon g with
      | none => { game := afterLevel g, threw := true }
      | some false => { game := loss (afterLevel g) }
      | some true =>
        if g.levelIndex + 1 < cfg.levels.length then startLevel cfg (afterLevel g)
        else { game := win (afterLevel g) } := by
  unfold endLevel goToNextLevel
  rfl

theorem startLevel_lastCall (cfg : Config) (g : Game) :
    (startLevel cfg g).game.trace = Call.startLevel g.levelIndex :: g.trace := by
  unfold startLevel
  cases cfg.urlLevel with
  | some l => rfl
  | none =>
    dsimp only
    cases levelAt cfg g.levelIndex <;> rfl

theorem startLevel_wave (cfg : Config) (g : Game) (hw : g.wave = 0) :
    (startLevel cfg g).game.wave = 0 := by
  unfold startLevel
  cases cfg.urlLevel with
  | some l => rfl
  | none =>
    dsimp only
    cases levelAt cfg g.levelIndex with
    | none => exact hw
    | some l => rfl

theorem levelWon_lastWaveLost : levelWon lastWaveLost = some false := by
  rw [lastWaveLost, midWave_eq]
  simp only [levelWon, construct, exampleLevel, Option.map_some']
  have := ratio_mul_10_mul_3
  push_cast
  rw [this]
  norm_num

theorem levelWon_lastWaveWon : levelWon lastWaveWon = some true := by
  rw [lastWaveWon, midWave_eq]
  simp only [levelWon, construct, exampleLevel, Option.map_some']
  have := ratio_mul_10_mul_3
  push_cast
  rw [this]
  norm_num

theorem noLevelGame_eq : noLevelGame =
    { construct with loaded := true, trace := [Call.startLevel 0] } := by
  simp [noLevelGame, run, step, handle, onLoad, startLevel, construct, emptyConfig, levelAt]

theorem TallyDefined.of_same {g g2 : Game} (h : TallyDefined g) (e1 : g2.bullets = g.bullets)
    (e2 : g2.ducksShotThisWave = g.ducksShotThisWave) : TallyDefined g2 := by
  unfold TallyDefined; rw [e1, e2]; exact h

theorem TallyDefined.of_empty {g : Game} (e : g.bullets = 0) : TallyDefined g :=
  fun h => absurd e h

theorem startWave_tally (now : Int) (g : Game) (h : TallyDefined g) :
    TallyDefined (startWave now g).game := by
  unfold startWave
  cases g.level with
  | none => dsimp only; split_ifs <;> exact h.of_same rfl rfl
  | some l => intro _; rfl

theorem startLevel_tally (cfg : Config) (g : Game) (h : TallyDefined g) :
    TallyDefined (startLevel cfg g).game := by
  unfold startLevel
  cases cfg.urlLevel with
  | some l => exact h.of_same rfl rfl
  | none =>
    dsimp only
    cases levelAt cfg g.levelIndex <;> exact h.of_same rfl rfl

theorem endLevel_tally (cfg : Config) (g : Game) (h : TallyDefined g) :
    TallyDefined (endLevel cfg g).game := by
  have ha : TallyDefined (afterLevel g) := h.of_same rfl rfl
  rw [endLevel_eq]
  cases levelWon g with
  | none => exact ha
  | some b =>
    cases b with
    | false => exact ha.of_same rfl rfl
    | true =>
      dsimp only
      split_ifs
      · exact startLevel_tally cfg _ ha
      · exact ha.of_same rfl rfl

theorem goToNextWave_tally (cfg : Config) (now : Int) (g : Game) (h : TallyDefined g) :
    TallyDefined (goToNextWave cfg now g).game := by
  unfold goToNextWave
  cases g.level with
  | none => exact h.of_same rfl rfl
  | some l =>
    dsimp only
    split_ifs
    · exact endLevel_tally cfg _ (h.of_same rfl rfl)
    · exact startWave_tally now _ (h.of_same rfl rfl)

theorem endWave_tally (cfg : Config) (st : Stage) (now : Int) (g : Game) :
    TallyDefined (endWave cfg st now g).game := by
  unfold endWave
  dsimp only
  split_ifs
  · cases g.level with
    | none => exact TallyDefined.of_empty rfl
    | some l => exact TallyDefined.of_empty rfl
  · exact goToNextWave_tally cfg now _ (TallyDefined.of_empty rfl)

theorem animate_tally (cfg : Config) (st : Stage) (now : Int) (g : Game) (h : TallyDefined g) :
    TallyDefined (animate cfg st now g).game := by
  unfold animate
  split_ifs
  · exact h
  · exact (endWave_tally cfg st now g).of_same rfl rfl
  · exact h

theorem fireOrReplay_tally (st : Stage) (now : Int) (p : Point) (g : Game) (l : Level)
    (hl : g.level = some l) (h : TallyDefined g) :
    TallyDefined (fireOrReplay st now p g).game := by
  unfold fireOrReplay
  split_ifs with hfire
  · simp only [Bool.and_eq_true, Bool.not_eq_true', outOfAmmo, hl, Option.isSome_some,
      Bool.true_and, decide_eq_false_iff_not] at hfire
    obtain ⟨⟨⟨_, hb⟩, _⟩, _⟩ := hfire
    have hs := h hb
    simp only [shoot, hl, updateScore]
    intro _
    show (g.ducksShotThisWave.map _).isSome = true
    rw [Option.isSome_map']
    exact hs
  · exact h.of_same rfl rfl
  · exact h

theorem dispatch_tally (st : Stage) (now : Int) (p : Point) (g : Game) (l : Level)
    (hl : g.level = some l) (h : TallyDefined g) :
    TallyDefined (dispatch st now p g).game := by
  unfold dispatch
  split_ifs
  all_goals first
    | exact h.of_same rfl rfl
    | exact fireOrReplay_tally st now p g l hl h

theorem keypress_tally (key : String) (st : Stage) (w : Window) (mouse : Point) (now : Int)
    (g : Game) (l : Level) (hl : g.level = some l) (h : TallyDefined g) :
    TallyDefined (keypress key st w mouse now g).game := by
  unfold keypress
  split_ifs
  all_goals first
    | exact h.of_same rfl rfl
    | exact dispatch_tally st now _ g l hl h
    | (unfold openLevelCreator; dsimp only; split_ifs <;> exact h.of_same rfl rfl)

/-- In a session whose first level could be started, a state with bullets left
has a defined counter of the current wave. -/
theorem reachable_tally (cfg : Config) (hs : cfg.Startable) (g : Game) (hr : Reachable cfg g) :
    TallyDefined g := by
  induction hr with
  | init => exact TallyDefined.of_empty rfl
  | step g ev hr hen ih =>
    have hi := reachable_inv cfg hs g hr
    cases ev with
    | load =>
      show TallyDefined (onLoad cfg g).game
      unfold onLoad
      dsimp only
      split_ifs
      · exact startLevel_tally cfg { g with loaded := true } (ih.of_same rfl rfl)
      · exact (startLevel_tally cfg { g with loaded := true } (ih.of_same rfl rfl)).of_same rfl rfl
    | mousedown st now p =>
      obtain ⟨l, hl, _⟩ := hi.levelOk (by simpa [enabled] using hen)
      exact dispatch_tally st now p g l hl ih
    | keypress key st w mouse now =>
      obtain ⟨l, hl, _⟩ := hi.levelOk (by simpa [enabled] using hen)
      exact keypress_tally key st w mouse now g l hl ih
    | blink st w now isBlink =>
      obtain ⟨l, hl, _⟩ := hi.levelOk (by simpa [enabled] using hen)
      show TallyDefined (onBlink st w now isBlink g).game
      unfold onBlink
      split_ifs
      · exact fireOrReplay_tally st now _ g l hl ih
      · exact ih
    | frame st now => exact animate_tally cfg st now g ih
    | pauseTimeout now =>
      show TallyDefined (pauseBody now _)
      unfold pauseBody
      split_ifs <;> exact ih.of_same rfl rfl
    | licenseTimeout now =>
      show TallyDefined (licenseKeyBody now _)
      unfold licenseKeyBody
      split_ifs <;> exact ih.of_same rfl rfl
    | introResolved now =>
      exact startWave_tally now _ (ih.of_same rfl rfl)
    | flyAwayResolved now =>
      exact goToNextWave_tally cfg now _ (ih.of_same rfl rfl)

/-- Every state in which a shot can be accepted with a level loaded has a
defined counter of the current wave, whatever the level data. -/
theorem reachable_shot_tally (cfg : Config) (g : Game) (hr : Reachable cfg g)
    (hl : g.level.isSome = true) (hb : g.bullets ≠ 0) : ∃ k, g.ducksShotThisWave = some k := by
  have hs : cfg.Startable := by
    by_contra hns
    rcases reachable_stuck cfg hns g hr with h | h
    · rw [h] at hl; simp [construct] at hl
    · rw [h.level] at hl; simp at hl
  have := reachable_tally cfg hs g hr hb
  exact Option.isSome_iff_exists.mp this

theorem introGame_eq : introGame =
    { construct with
      loaded := true, animating := true, level := some (exampleLevel 10 3), maxScore := 300,
      gameStatus := "Level", introPending := 1, trace := [Call.startLevel 0] } := by
  simp [introGame, run, step, handle, onLoad, startLevel, construct, exampleConfig, levelAt,
    exampleLevel]

theorem startWave_timePaused (now : Int) (g : Game) :
    (startWave now g).game.timePaused = g.timePaused := by
  unfold startWave
  cases g.level with
  | none => dsimp only; split_ifs <;> rfl
  | some l => rfl

theorem startLevel_timePaused (cfg : Config) (g : Game) :
    (startLevel cfg g).game.timePaused = g.timePaused := by
  unfold startLevel
  cases cfg.urlLevel with
  | some l => rfl
  | none =>
    dsimp only
    cases levelAt cfg g.levelIndex <;> rfl

theorem waveElapsedTime_startWave (ws t : Int) (g : Game) (l : Level) (P : ℚ)
    (hl : g.level = some l) (hP : g.timePaused = some P) :
    waveElapsedTime t (startWave ws g).game
      = some (binary64 (binary64 (((t - ws : Int) : ℚ) / 1000) - P)) := by
  simp [waveElapsedTime, startWave, secondsSince, hl, hP]

theorem isWaveTimeUp_startWave (ws t : Int) (g : Game) (l : Level) (P : ℚ)
    (hl : g.level = some l) (hP : g.timePaused = some P) :
    isWaveTimeUp t (startWave ws g).game
      = decide (l.time ≤ binary64 (binary64 (((t - ws : Int) : ℚ) / 1000) - P)) := by
  have h := waveElapsedTime_startWave ws t g l P hl hP
  have hl2 : (startWave ws g).game.level = some l := by simp [startWave, hl]
  unfold isWaveTimeUp
  rw [hl2, h]

theorem pausedEarlier_eq : pausedEarlier =
    { construct with
      loaded := true, animating := true, level := some (exampleLevel 10 3), maxScore := 300,
      wave := 1, waveStartTime := some 5000, bullets := 3, ducksShotThisWave := some 0,
      pauseStartTime := some 1000, timePaused := some pausedSeconds,
      trace := [Call.startWave, Call.pause, Call.pause, Call.startLevel 0] } := by
  have e : ((4025 - 1000 : ℚ) / 1000) = 3025 / 1000 := by norm_num
  simp only [pausedEarlier, run, step, handle, onLoad, startLevel, construct, exampleConfig,
    levelAt, introDone, startWave, exampleLevel, keypress, pause, pauseBody, addTimePaused,
    secondsSince, Option.map_some', if_true, Bool.false_eq_true, if_false]
  simp [e, binary64_pausedSeconds, binary64_pausedSeconds_again]

theorem reachable_pausedEarlier : Reachable exampleConfig pausedEarlier :=
  Reachable.step _ _ (Reachable.step _ _ (Reachable.step _ _ (Reachable.step _ _
    (Reachable.step _ _ (Reachable.step _ _ Reachable.init rfl) rfl) rfl) rfl) rfl) rfl

theorem PausedIsDouble.of_kept {g g2 : Game} (h : PausedIsDouble g)
    (e : g2.timePaused = g.timePaused) : PausedIsDouble g2 := by
  unfold PausedIsDouble; rw [e]; exact h

theorem addTimePaused_double (now : Int) (g : Game) (P : ℚ)
    (h : addTimePaused now g = some P) : binary64 P = P := by
  unfold addTimePaused at h
  split at h
  · cases h; exact binary64_idem _
  · cases h

theorem endLevel_timePaused (cfg : Config) (g : Game) :
    (endLevel cfg g).game.timePaused = g.timePaused := by
  rw [endLevel_eq]
  cases levelWon g with
  | none => rfl
  | some b =>
    cases b with
    | false => rfl
    | true =>
      dsimp only
      split_ifs
      · exact startLevel_timePaused cfg _
      · rfl

theorem goToNextWave_timePaused (cfg : Config) (now : Int) (g : Game) :
    (goToNextWave cfg now g).game.timePaused = g.timePaused := by
  unfold goToNextWave
  cases g.level with
  | none => rfl
  | some l =>
    dsimp only
    split_ifs
    · exact endLevel_timePaused cfg _
    · exact startWave_timePaused now _

theorem endWave_timePaused (cfg : Config) (st : Stage) (now : Int) (g : Game) :
    (endWave cfg st now g).game.timePaused = g.timePaused := by
  unfold endWave
  dsimp only
  split_ifs
  · cases g.level <;> rfl
  · exact goToNextWave_timePaused cfg now _

theorem animate_timePaused (cfg : Config) (st : Stage) (now : Int) (g : Game) :
    (animate cfg st now g).game.timePaused = g.timePaused := by
  unfold animate
  split_ifs
  · rfl
  · exact endWave_timePaused cfg st now g
  · rfl

theorem fireOrReplay_timePaused (st : Stage) (now : Int) (p : Point) (g : Game) :
    (fireOrReplay st now p g).game.timePaused = g.timePaused := by
  unfold fireOrReplay
  split_ifs
  · unfold shoot updateScore
    cases g.level <;> rfl
  · rfl
  · rfl

theorem dispatch_timePaused (st : Stage) (now : Int) (p : Point) (g : Game) :
    (dispatch st now p g).game.timePaused = g.timePaused := by
  unfold dispatch
  split_ifs
  all_goals first
    | rfl
    | exact fireOrReplay_timePaused st now p g

theorem keypress_timePaused (key : String) (st : Stage) (w : Window) (mouse : Point) (now : Int)
    (g : Game) : (keypress key st w mouse now g).game.timePaused = g.timePaused := by
  unfold keypress
  split_ifs
  all_goals first
    | rfl
    | exact dispatch_timePaused st now _ g
    | (unfold openLevelCreator; dsimp only; split_ifs <;> rfl)

/-- In every state of a session the accumulated pause is a double or `NaN`:
only the deferred bodies of `pause` and `licenseKey` assign it. -/
theorem reachable_paused_double (cfg : Config) (g : Game) (hr : Reachable cfg g) :
    PausedIsDouble g := by
  induction hr with
  | init =>
    intro P hP
    have : P = 0 := by
      simp only [construct, Option.some.injEq] at hP
      exact hP.symm
    rw [this, binary64_zero]
  | step g ev hr hen ih =>
    cases ev with
    | load =>
      apply ih.of_kept
      show (onLoad cfg g).game.timePaused = g.timePaused
      unfold onLoad
      dsimp only
      split_ifs
      · exact startLevel_timePaused cfg { g with loaded := true }
      · exact startLevel_timePaused cfg { g with loaded := true }
    | mousedown st now p => exact ih.of_kept (dispatch_timePaused st now p g)
    | keypress key st w mouse now => exact ih.of_kept (keypress_timePaused key st w mouse now g)
    | blink st w now isBlink =>
      apply ih.of_kept
      show (onBlink st w now isBlink g).game.timePaused = g.timePaused
      unfold onBlink
      split_ifs
      · exact fireOrReplay_timePaused st now _ g
      · rfl
    | frame st now => exact ih.of_kept (animate_timePaused cfg st now g)
    | pauseTimeout now =>
      show PausedIsDouble (pauseBody now _)
      unfold pauseBody
      split_ifs
      · exact fun P hP => addTimePaused_double now _ P hP
      · exact ih.of_kept rfl
    | licenseTimeout now =>
      show PausedIsDouble (licenseKeyBody now _)
      unfold licenseKeyBody
      split_ifs
      · exact ih.of_kept rfl
      · exact fun P hP => addTimePaused_double now _ P hP
    | introResolved now =>
      exact ih.of_kept (startWave_timePaused now _)
    | flyAwayResolved now =>
      exact ih.of_kept (goToNextWave_timePaused cfg now _)

theorem shotWithoutLevel_eq : shotWithoutLevel =
    { construct with loaded := true, bullets := -1,
                     trace := [Call.gunSound, Call.startLevel 0] } := by
  simp [shotWithoutLevel, run, step, handle, onLoad, startLevel, construct, emptyConfig, levelAt,
    handleClick, dispatch, fireOrReplay, outOfAmmo, shouldWaveEnd, shoot, missStage]

theorem emptyConfig_offers_nothing (l : Level) : ¬ emptyConfig.Offers l := by
  simp [Config.Offers, emptyConfig]

/-- Ammunition with a level to start.  In a session whose first level could be
started and whose levels all carry a non-negative number of bullets, every
reachable state has `bullets ≥ 0`; and in any state with a level loaded and
`bullets = 0` a click, a key press and a blink leave bullets, score, ducksShot
and ducksShotThisWave as they are. -/
theorem ammunition_never_negative (cfg : Config) (hs : cfg.Startable)
    (hb : ∀ l, cfg.Offers l → 0 ≤ l.bullets) :
    (∀ g, Reachable cfg g → 0 ≤ g.bullets)
    ∧ (∀ g : Game, g.level.isSome = true → g.bullets = 0 →
        ∀ (st : Stage) (w : Window) (now : Int) (p : Point) (key : String) (isBlink : Bool),
          SameTally g (handleClick st now p g).game
          ∧ SameTally g (keypress key st w p now g).game
          ∧ SameTally g (onBlink st w now isBlink g).game) := by
  refine ⟨fun g hr => (reachable_inv cfg hs g hr).bulletsNonneg hb, ?_⟩
  intro g hl h0 st w now p key isBlink
  have h := outOfAmmo_of_empty g hl h0
  exact ⟨dispatch_sameTally g st now p h, keypress_sameTally g key st w p now h,
    onBlink_sameTally g st w now isBlink h⟩

/-- The session in its first wave is such a state. -/
theorem ammunition_never_negative_witness :
    Reachable exampleConfig midWave ∧ 0 ≤ midWave.bullets :=
  ⟨reachable_midWave,
   (ammunition_never_negative exampleConfig exampleConfig_startable
      (by
        intro l hl
        rcases hl with h | h
        · simp [exampleConfig] at h; subst h; simp [exampleLevel]
        · simp [exampleConfig] at h)).1 midWave reachable_midWave⟩

/-! ## The claims -/

/-- C1 fails as stated.  With `ducks = 3`, `waves = 15` and `ducksShot = 27` the
exact threshold is `0.6 * 45 = 27`, which 27 does not exceed; the code computes
`0.6 * 3 = 1.7999999999999998` and `1.7999999999999998 * 15 = 26.999999999999996`
in doubles, which 27 does exceed, and `levelWon` returns true. -/
theorem levelWon_exact_threshold_fails :
    ¬ (levelWon (gameWithShots 3 15 27) = some true
        ↔ (6 / 10 : ℚ) * ((3 : ℤ) : ℚ) * ((15 : ℤ) : ℚ) < ((27 : ℤ) : ℚ)) := by
  have h : levelWon (gameWithShots 3 15 27) = some true := by
    simp only [levelWon, gameWithShots, construct, exampleLevel, Option.map_some']
    have := ratio_mul_3_mul_15
    push_cast
    rw [this]
    norm_num
  rw [iff_true_left h]
  norm_num

/-- C1, amended.  For a level with `|ducks * waves| ≤ 2^40`, `levelWon` returns
true whenever `ducksShot > (6/10) * ducks * waves` and false whenever
`ducksShot < (6/10) * ducks * waves`; what it returns when `ducksShot` equals
three fifths of `ducks * waves` is decided by the rounding of the double product
`0.6 * ducks * waves`.  With `ducks = 10` and `waves = 3` that product is
exactly 18: the level is won exactly from 19 ducks on, so 19 wins and 18 loses. -/
theorem levelWon_threshold (g : Game) (l : Level) (hl : g.level = some l)
    (hb : |l.ducks * l.waves| ≤ 2 ^ 40) :
    ((6 / 10 : ℚ) * l.ducks * l.waves < g.ducksShot → levelWon g = some true)
    ∧ ((g.ducksShot : ℚ) < 6 / 10 * l.ducks * l.waves → levelWon g = some false)
    ∧ (l.ducks = 10 → l.waves = 3 → (levelWon g = some true ↔ 19 ≤ g.ducksShot)) := by
  have herr := threshold_err l.ducks l.waves hb
  rw [abs_le] at herr
  obtain ⟨e1, e2⟩ := herr
  refine ⟨?_, ?_, ?_⟩
  · intro h
    have hz : 6 * l.ducks * l.waves < 10 * g.ducksShot := by
      have : (6 : ℚ) * l.ducks * l.waves < 10 * g.ducksShot := by linarith
      exact_mod_cast this
    have hz2 : 6 * l.ducks * l.waves + 1 ≤ 10 * g.ducksShot := hz
    have hq : (6 : ℚ) * l.ducks * l.waves + 1 ≤ 10 * g.ducksShot := by exact_mod_cast hz2
    simp only [levelWon, hl, Option.map_some', Option.some.injEq, decide_eq_true_eq]
    have : (1 : ℚ) / 2 ^ 11 < 1 / 10 := by norm_num
    linarith
  · intro h
    have hz : 10 * g.ducksShot < 6 * l.ducks * l.waves := by
      have : (10 : ℚ) * g.ducksShot < 6 * l.ducks * l.waves := by linarith
      exact_mod_cast this
    have hz2 : 10 * g.ducksShot + 1 ≤ 6 * l.ducks * l.waves := hz
    have hq : (10 : ℚ) * g.ducksShot + 1 ≤ 6 * l.ducks * l.waves := by exact_mod_cast hz2
    simp only [levelWon, hl, Option.map_some', Option.some.injEq, decide_eq_false_iff_not, not_lt]
    have : (1 : ℚ) / 2 ^ 11 < 1 / 10 := by norm_num
    linarith
  · intro hd hw
    simp only [levelWon, hl, Option.map_some', Option.some.injEq, decide_eq_true_eq, hd, hw]
    have := ratio_mul_10_mul_3
    push_cast
    rw [this]
    constructor
    · intro h
      have : (18 : ℤ) < g.ducksShot := by exact_mod_cast h
      omega
    · intro h
      have : (18 : ℤ) < g.ducksShot := by omega
      exact_mod_cast this

/-- Witness of C1, amended: the level of ten ducks in three waves, with 19 and
with 18 ducks shot. -/
theorem levelWon_threshold_witness :
    levelWon (gameWithShots 10 3 19) = some true ∧ levelWon (gameWithShots 10 3 18) ≠ some true :=
  ⟨((levelWon_threshold (gameWithShots 10 3 19) (exampleLevel 10 3) rfl
      (by simp [exampleLevel, abs_of_pos])).2.2 rfl rfl).mpr (by simp [gameWithShots]),
   fun h => absurd (((levelWon_threshold (gameWithShots 10 3 18) (exampleLevel 10 3) rfl
      (by simp [exampleLevel, abs_of_pos])).2.2 rfl rfl).mp h) (by simp [gameWithShots])⟩

/-- C2 fails on the code.  `onBlink` has no link tests.  In the first wave, with
three bullets, a blink at a point on the pause link fires a shot (one bullet
less, `gunSound` recorded, `pause` not called), where `handleClick` at the same
point calls `pause` and nothing else.  And the method `showInstructions` the
three other handlers call for the instructions link does not exist: the
call throws and the link is not activated (no shot is fired either). -/
theorem onBlink_fires_on_pause_link :
    pauseLinkStage.clickedPauseLink (gazeClickPoint pauseLinkStage exampleWindow) = true
    ∧ (onBlink pauseLinkStage exampleWindow 0 true midWave).game.bullets = midWave.bullets - 1
    ∧ (onBlink pauseLinkStage exampleWindow 0 true midWave).game.trace
        = Call.gunSound :: midWave.trace
    ∧ (onBlink pauseLinkStage exampleWindow 0 true midWave).game.pauseTimeouts
        = midWave.pauseTimeouts
    ∧ (handleClick pauseLinkStage 0 (gazeClickPoint pauseLinkStage exampleWindow) midWave).game
        = pause midWave
    ∧ handleClick instructionsLinkStage 0 origin midWave = { game := midWave, threw := true } := by
  rw [midWave_eq]
  simp [onBlink, fireOrReplay, outOfAmmo, shouldWaveEnd, isWaveTimeUp, waveElapsedTime,
    secondsSince, binary64_zero, shoot, updateScore, handleClick, dispatch, pauseLinkStage,
    instructionsLinkStage, missStage, construct, exampleLevel]

/-- C3 fails on the code.  With no level to start (empty level list, no level
in the URL) every level of the configuration has `bullets ≥ 0`, vacuously, and
the state after `onLoad` and one click at a point on no link is reachable, has
no level and `bullets = -1`: `outOfAmmo` is falsy without a level, so the shot
is accepted.  Hence `bullets ≥ 0` is no invariant of every session. -/
theorem ammunition_negative_without_level :
    (∀ l, emptyConfig.Offers l → 0 ≤ l.bullets)
    ∧ Reachable emptyConfig shotWithoutLevel
    ∧ shotWithoutLevel.level = none
    ∧ shotWithoutLevel.bullets = -1
    ∧ ¬ (∀ cfg : Config, (∀ l, cfg.Offers l → 0 ≤ l.bullets) →
          ∀ g, Reachable cfg g → 0 ≤ g.bullets) := by
  have hv : ∀ l, emptyConfig.Offers l → 0 ≤ l.bullets :=
    fun l hl => absurd hl (emptyConfig_offers_nothing l)
  have hr : Reachable emptyConfig shotWithoutLevel :=
    Reachable.step _ _ (Reachable.step _ _ Reachable.init rfl) rfl
  have hb : shotWithoutLevel.bullets = -1 := by rw [shotWithoutLevel_eq]
  refine ⟨hv, hr, by rw [shotWithoutLevel_eq]; rfl, hb, fun h => ?_⟩
  have := h emptyConfig hv shotWithoutLevel hr
  rw [hb] at this
  omega

/-- C4, as stated, fails in double arithmetic: with the wave started at
instant 0, nothing paused before, a pause at 100 ms and the resume at 300 ms, the
elapsed time is `0.1` before the pause and `0.3 - 0.2 = 0.09999999999999998`
after the resume. -/
theorem pause_resume_changes_elapsed :
    waveElapsedTime 300 (pauseBody 300 (pauseBody 100 midWave)) ≠ waveElapsedTime 100 midWave := by
  rw [elapsed_before_pause, elapsed_after_resume]
  intro h
  have := Option.some.inj h
  norm_num at this

/-- C4, amended.  A pause at `t1` and the resume at `t2 ≥ t1` keep the elapsed
wave time up to the rounding of doubles: the value before the pause and the
value after the resume are both within `2^-50` times the magnitudes involved of
`(t1 - ws) / 1000 - P`, the value both have in exact arithmetic. -/
theorem pause_resume_keeps_elapsed (g : Game) (ws t1 t2 : Int) (P : ℚ)
    (hws : g.waveStartTime = some ws) (hP : g.timePaused = some P) (hp : g.paused = false)
    (h12 : t1 ≤ t2) :
    ∃ before after : ℚ,
      waveElapsedTime t1 g = some before
      ∧ waveElapsedTime t2 (pauseBody t2 (pauseBody t1 g)) = some after
      ∧ |before - (((t1 - ws : Int) : ℚ) / 1000 - P)|
          ≤ (|((t1 - ws : Int) : ℚ) / 1000| + |((t2 - ws : Int) : ℚ) / 1000|
              + ((t2 - t1 : Int) : ℚ) / 1000 + |P|) / 2 ^ 50
      ∧ |after - (((t1 - ws : Int) : ℚ) / 1000 - P)|
          ≤ (|((t1 - ws : Int) : ℚ) / 1000| + |((t2 - ws : Int) : ℚ) / 1000|
              + ((t2 - t1 : Int) : ℚ) / 1000 + |P|) / 2 ^ 50 := by
  have hd : (0 : ℚ) ≤ ((t2 - t1 : Int) : ℚ) / 1000 := by
    apply div_nonneg _ (by norm_num)
    exact_mod_cast sub_nonneg.mpr h12
  have hsub : ((t2 - ws : Int) : ℚ) / 1000 - ((t2 - t1 : Int) : ℚ) / 1000
      = ((t1 - ws : Int) : ℚ) / 1000 := by
    push_cast; ring
  have h := elapsed_near_exact _ _ _ P hsub
  rw [abs_of_nonneg hd] at h
  refine ⟨_, _, ?_, ?_, h.1, h.2⟩
  · simp only [waveElapsedTime, secondsSince, hws, hP, Option.map_some']
  · simp only [waveElapsedTime, pauseBody, addTimePaused, secondsSince, hws, hP, hp,
      Option.map_some', Bool.false_eq_true, if_false, if_true]

/-- Witness of C4, amended: the wave started at instant 0, a pause at 100 ms
and the resume at 300 ms. -/
theorem pause_resume_keeps_elapsed_witness :
    ∃ before after : ℚ,
      waveElapsedTime 100 midWave = some before
      ∧ waveElapsedTime 300 (pauseBody 300 (pauseBody 100 midWave)) = some after
      ∧ |before - (((100 - 0 : Int) : ℚ) / 1000 - 0)|
          ≤ (|((100 - 0 : Int) : ℚ) / 1000| + |((300 - 0 : Int) : ℚ) / 1000|
              + ((300 - 100 : Int) : ℚ) / 1000 + |(0 : ℚ)|) / 2 ^ 50
      ∧ |after - (((100 - 0 : Int) : ℚ) / 1000 - 0)|
          ≤ (|((100 - 0 : Int) : ℚ) / 1000| + |((300 - 0 : Int) : ℚ) / 1000|
              + ((300 - 100 : Int) : ℚ) / 1000 + |(0 : ℚ)|) / 2 ^ 50 :=
  pause_resume_keeps_elapsed midWave 0 100 300 0 (by rw [midWave_eq]) (by rw [midWave_eq]; rfl)
    (by rw [midWave_eq]; rfl) (by decide)

/-- C5.  The score message is the stated step function of the percentage
`p = score / maxScore * 100` the method computes: for `maxScore > 0` and
`0 ≤ score ≤ maxScore` each of the six labels is returned exactly on its tier,
and one of them is returned. -/
theorem getScoreMessage_tiers (g : Game) (hm : 0 < g.maxScore) (h0 : 0 ≤ g.score)
    (h1 : g.score ≤ g.maxScore) :
    (getScoreMessage g = some "Flawless victory." ↔ percentage g = 100)
    ∧ (getScoreMessage g = some "Close to perfection." ↔ 95 < percentage g ∧ percentage g < 100)
    ∧ (getScoreMessage g = some "Truly impressive score."
        ↔ 85 < percentage g ∧ percentage g ≤ 95)
    ∧ (getScoreMessage g = some "Solid score." ↔ 75 < percentage g ∧ percentage g ≤ 85)
    ∧ (getScoreMessage g = some "Participation award."
        ↔ 63 < percentage g ∧ percentage g ≤ 75)
    ∧ (getScoreMessage g = some "Yikes." ↔ percentage g ≤ 63)
    ∧ (∃ m, getScoreMessage g = some m
        ∧ m ∈ ["Flawless victory.", "Close to perfection.", "Truly impressive score.",
                "Solid score.", "Participation award.", "Yikes."]) := by
  have hne : g.maxScore ≠ 0 := ne_of_gt hm
  have e : getScoreMessage g = scoreMessageOf (percentage g) := by
    simp [getScoreMessage, hne]
  rw [e]
  obtain ⟨t1, t2, t3, t4, t5, t6, t7⟩ := scoreMessageOf_tiers (percentage g)
  refine ⟨t1, t2, t3, t4, t5, t6, ?_⟩
  have hp := percentage_le g hm h0 h1
  by_cases c6 : percentage g ≤ 63
  · exact ⟨_, t6.mpr c6, by simp⟩
  by_cases c5 : percentage g ≤ 75
  · exact ⟨_, t5.mpr ⟨not_le.mp c6, c5⟩, by simp⟩
  by_cases c4 : percentage g ≤ 85
  · exact ⟨_, t4.mpr ⟨not_le.mp c5, c4⟩, by simp⟩
  by_cases c3 : percentage g ≤ 95
  · exact ⟨_, t3.mpr ⟨not_le.mp c4, c3⟩, by simp⟩
  by_cases c2 : percentage g < 100
  · exact ⟨_, t2.mpr ⟨not_le.mp c3, c2⟩, by simp⟩
  · exact ⟨_, t1.mpr (le_antisymm hp (not_lt.mp c2)), by simp⟩

/-- Witness of C5: a session that scored 300 of 300 is told
`Flawless victory.` -/
theorem getScoreMessage_tiers_witness :
    getScoreMessage perfectGame = some "Flawless victory." :=
  (getScoreMessage_tiers perfectGame (by simp [perfectGame, construct])
    (by simp [perfectGame, construct]) (by simp [perfectGame, construct])).1.mpr
    percentage_perfectGame

/-- C6.  The end-wave decision with a level loaded: `shouldWaveEnd` is false when
the wave number is 0, the wave is already ending or the dog is active; otherwise
it is true exactly when the elapsed wave time has reached `level.time`, or the
bullets are used up while ducks are alive, or no duck is active. -/
theorem shouldWaveEnd_decision (g : Game) (st : Stage) (now : Int) (l : Level)
    (hl : g.level = some l) :
    ((g.wave = 0 ∨ g.waveEnding = true ∨ st.dogActive = true) →
        shouldWaveEnd st now g = false)
    ∧ (¬ (g.wave = 0 ∨ g.waveEnding = true ∨ st.dogActive = true) →
        (shouldWaveEnd st now g = true ↔
          ((∃ e, waveElapsedTime now g = some e ∧ l.time ≤ e)
            ∨ (g.bullets = 0 ∧ st.ducksAlive = true)
            ∨ st.ducksActive = false))) := by
  constructor
  · intro h
    simp [shouldWaveEnd, h]
  · intro h
    simp only [shouldWaveEnd, h, if_false, Bool.or_eq_true, Bool.and_eq_true, isWaveTimeUp, hl,
      outOfAmmo, Option.isSome_some, Bool.true_and, decide_eq_true_eq, Bool.not_eq_true']
    cases he : waveElapsedTime now g with
    | none => simp
    | some e => simp [or_assoc]

/-- Witness of C6: while the ducks of the first wave fly away the wave is
ending and the decision is false. -/
theorem shouldWaveEnd_decision_witness :
    shouldWaveEnd missStage 0 flyingAway = false :=
  (shouldWaveEnd_decision flyingAway missStage 0 (exampleLevel 10 3)
      (by rw [flyingAway_eq])).1 (Or.inr (Or.inl (by rw [flyingAway_eq])))

/-- C7.  No shot is accepted while a wave is ending.  In every reachable state
with `waveEnding = true` a click, a key press and a blink, at any point, leave
bullets, score, ducksShot and ducksShotThisWave as they are (the bullets were
set to 0 by `endWave` and a level is loaded, so `outOfAmmo` holds), and a frame
does not call `endWave` again: `shouldWaveEnd` is false and `animate` returns
the state it was given. -/
theorem no_shot_while_wave_ending (cfg : Config) (g : Game)
    (hr : Reachable cfg g) (he : g.waveEnding = true) :
    (∀ (st : Stage) (w : Window) (now : Int) (p : Point) (key : String) (isBlink : Bool),
        SameTally g (handleClick st now p g).game
        ∧ SameTally g (keypress key st w p now g).game
        ∧ SameTally g (onBlink st w now isBlink g).game)
    ∧ (∀ (st : Stage) (now : Int),
        shouldWaveEnd st now g = false ∧ animate cfg st now g = { game := g }) := by
  have hi := reachable_inv cfg (reachable_ending cfg g hr he) g hr
  have hload : g.loaded = true := hi.loaded_of_ne (by
    intro h; rw [h] at he; simp [construct] at he)
  obtain ⟨l, hl, _⟩ := hi.levelOk hload
  have h := outOfAmmo_of_empty g (by simp [hl]) (hi.endingEmpty he)
  refine ⟨fun st w now p key isBlink =>
    ⟨dispatch_sameTally g st now p h, keypress_sameTally g key st w p now h,
      onBlink_sameTally g st w now isBlink h⟩, fun st now => ?_⟩
  have hs : shouldWaveEnd st now g = false := by simp [shouldWaveEnd, he]
  refine ⟨hs, ?_⟩
  unfold animate
  simp [hs]

/-- Witness of C7: the session while the ducks of the first wave fly away. -/
theorem no_shot_while_wave_ending_witness :
    flyingAway.waveEnding = true
    ∧ SameTally flyingAway (handleClick missStage 0 origin flyingAway).game
    ∧ animate exampleConfig missStage 0 flyingAway = { game := flyingAway } :=
  have h := no_shot_while_wave_ending exampleConfig flyingAway
    reachable_flyingAway (by rw [flyingAway_eq])
  ⟨by rw [flyingAway_eq], (h.1 missStage exampleWindow 0 origin "q" true).1, (h.2 missStage 0).2⟩

/-- C8, as stated, fails: `endWave` has no guard of its own.  Called in the
reachable state `flyingAway`, where `waveEnding` is already true, it counts the
ten ducks of the wave as missed a second time and asks for a second fly-away,
whose resolution is a further `goToNextWave`. -/
theorem endWave_not_reentrant :
    flyingAway.waveEnding = true
    ∧ (endWave exampleConfig missStage 0 flyingAway).game.ducksMissed
        = flyingAway.ducksMissed + 10
    ∧ (endWave exampleConfig missStage 0 flyingAway).game.flyAwayPending
        = flyingAway.flyAwayPending + 1 := by
  rw [flyingAway_eq]
  simp [endWave, addDucksMissed, missStage, construct, exampleLevel]

/-- C8, amended.  The guard is at the call site: while `waveEnding` is true
`shouldWaveEnd` is false, so a frame does not call `endWave`; it leaves score,
bullets, ducksShot, ducksShotThisWave, ducksMissed, wave and levelIndex as they
are, asks for no fly-away and records no call. -/
theorem frame_skips_endWave (cfg : Config) (st : Stage) (now : Int) (g : Game)
    (he : g.waveEnding = true) :
    (animate cfg st now g).threw = false
    ∧ (animate cfg st now g).game.score = g.score
    ∧ (animate cfg st now g).game.bullets = g.bullets
    ∧ (animate cfg st now g).game.ducksShot = g.ducksShot
    ∧ (animate cfg st now g).game.ducksShotThisWave = g.ducksShotThisWave
    ∧ (animate cfg st now g).game.ducksMissed = g.ducksMissed
    ∧ (animate cfg st now g).game.wave = g.wave
    ∧ (animate cfg st now g).game.levelIndex = g.levelIndex
    ∧ (animate cfg st now g).game.flyAwayPending = g.flyAwayPending
    ∧ (animate cfg st now g).game.trace = g.trace := by
  have hs : shouldWaveEnd st now g = false := by simp [shouldWaveEnd, he]
  have : animate cfg st now g = { game := g } := by
    unfold animate
    simp [hs]
  rw [this]
  simp

/-- Witness of C8, amended: a frame while the ducks of the first wave fly away. -/
theorem frame_skips_endWave_witness :
    flyingAway.waveEnding = true
    ∧ (animate exampleConfig missStage 0 flyingAway).game.ducksMissed = flyingAway.ducksMissed
    ∧ (animate exampleConfig missStage 0 flyingAway).game.trace = flyingAway.trace :=
  have h := frame_skips_endWave exampleConfig missStage 0 flyingAway (by rw [flyingAway_eq])
  ⟨by rw [flyingAway_eq], h.2.2.2.2.2.1, h.2.2.2.2.2.2.2.2.2⟩

/-- C9 fails on the code.  The license entry is opened and closed without the
game ever being paused: when the deferred body of the second key press runs,
the pause flag is false and no pause began, yet `timePaused` changes, from `0`
to `NaN`. -/
theorem licenseKey_changes_timePaused_unpaused :
    Reachable exampleConfig licenseClosing
    ∧ enabled licenseClosing (Event.licenseTimeout 5040) = true
    ∧ licenseClosing.paused = false
    ∧ licenseClosing.pauseStartTime = none
    ∧ licenseClosing.timePaused = some 0
    ∧ (step exampleConfig licenseClosing (Event.licenseTimeout 5040)).timePaused = none := by
  have e : licenseClosing =
      { construct with
        loaded := true, animating := true, level := some (exampleLevel 10 3), maxScore := 300,
        gameStatus := "Level", introPending := 1, licenseTimeouts := 1,
        trace := [Call.licenseKey, Call.licenseKey, Call.startLevel 0] } := by
    simp [licenseClosing, run, step, handle, onLoad, startLevel, construct, exampleConfig,
      levelAt, keypress, licenseKey, licenseKeyBody, exampleLevel]
  refine ⟨?_, ?_⟩
  · exact Reachable.step _ _ (Reachable.step _ _ (Reachable.step _ _
      (Reachable.step _ _ Reachable.init rfl) rfl) rfl) rfl
  · rw [e]
    simp [enabled, step, handle, licenseKeyBody, addTimePaused, secondsSince, construct]

/-- C10.  The level index only moves forward and stays bounded.  For every
non-empty level sequence, with or without a level decoded from the URL: in
every reachable state `levelIndex ≤ levels.length`, every entry of `startLevel`
found `levelIndex < levels.length`, and `levelIndex = levels.length` only holds
once the game has ended (the replay button is shown under the status
`You Win!` or `You Lose!`); and no event decreases `levelIndex`. -/
theorem levelIndex_forward_bounded (cfg : Config) (hne : cfg.levels ≠ []) :
    (∀ g, Reachable cfg g →
        g.levelIndex ≤ cfg.levels.length
        ∧ (∀ i, Call.startLevel i ∈ g.trace → i < cfg.levels.length)
        ∧ (g.levelIndex = cfg.levels.length →
            g.replayButton.isSome = true
            ∧ (g.gameStatus = "You Win!" ∨ g.gameStatus = "You Lose!")))
    ∧ (∀ g ev, Reachable cfg g → enabled g ev = true →
        g.levelIndex ≤ (step cfg g ev).levelIndex) := by
  have hs : cfg.Startable := Or.inl hne
  have hpos : 0 < cfg.levels.length := List.length_pos.mpr hne
  refine ⟨fun g hr => ?_, fun g ev hr hen => ?_⟩
  · have hi := reachable_inv cfg hs g hr
    refine ⟨hi.idxHi, hi.entries hne, fun heq => ?_⟩
    have hrb : g.replayButton.isSome = true := by
      cases hh : g.replayButton with
      | some t => rfl
      | none =>
        exfalso
        cases hl : g.loaded with
        | true => have := hi.idxIn hh hl; omega
        | false =>
          have := hi.fresh hl
          rw [this] at heq
          simp [construct] at heq
          omega
    exact ⟨hrb, (hi.over hrb).2.2.2.2⟩
  · exact (step_inv cfg hs g ev (reachable_inv cfg hs g hr) hen).2 hne

/-- Witness of C10: the session in its first wave, and a click in it. -/
theorem levelIndex_forward_bounded_witness :
    midWave.levelIndex ≤ exampleConfig.levels.length
    ∧ midWave.levelIndex
        ≤ (step exampleConfig midWave (Event.mousedown missStage 0 origin)).levelIndex :=
  have h := levelIndex_forward_bounded exampleConfig (by simp [exampleConfig])
  ⟨(h.1 midWave reachable_midWave).1,
   h.2 midWave (Event.mousedown missStage 0 origin) reachable_midWave (by rw [midWave_eq]; rfl)⟩

/-- C11.  `endLevel` followed by `goToNextLevel` decides the outcome in the
stated order.  In every state the wave number is reset to 0 and the level index
is incremented by one before anything else (`afterLevel`); the session is then
lost exactly when `levelWon` returns false (also for the last level); when it
returns true `startLevel` is entered, with the incremented index, exactly when
that index is below `levels.length`, and the session is won otherwise.  The
newest recorded call tells the three outcomes apart. -/
theorem endLevel_outcome (cfg : Config) (g : Game) :
    (endLevel cfg g).game.wave = 0
    ∧ (levelWon g = some false → endLevel cfg g = { game := loss (afterLevel g) })
    ∧ (levelWon g = some true → g.levelIndex + 1 < cfg.levels.length →
        endLevel cfg g = startLevel cfg (afterLevel g))
    ∧ (levelWon g = some true → ¬ g.levelIndex + 1 < cfg.levels.length →
        endLevel cfg g = { game := win (afterLevel g) })
    ∧ ((endLevel cfg g).game.trace.head? = some Call.loss ↔ levelWon g = some false)
    ∧ ((endLevel cfg g).game.trace.head? = some (Call.startLevel (g.levelIndex + 1))
        ↔ levelWon g = some true ∧ g.levelIndex + 1 < cfg.levels.length)
    ∧ ((endLevel cfg g).game.trace.head? = some Call.win
        ↔ levelWon g = some true ∧ ¬ g.levelIndex + 1 < cfg.levels.length) := by
  rw [endLevel_eq]
  cases hw : levelWon g with
  | none => simp [afterLevel]
  | some b =>
    cases b with
    | false => simp [loss, showReplay, afterLevel]
    | true =>
      by_cases hlt : g.levelIndex + 1 < cfg.levels.length
      · simp only [hlt, if_true]
        refine ⟨startLevel_wave cfg _ rfl, by simp, by simp, by simp, ?_, ?_, ?_⟩
        · rw [startLevel_lastCall]; simp
        · rw [startLevel_lastCall]; simp [afterLevel]
        · rw [startLevel_lastCall]; simp
      · simp [hlt, win, showReplay, afterLevel]

/-- Witness of C11: the only level of the example, ended with no duck shot, is
lost although it was the last level; ended with every duck shot it is won. -/
theorem endLevel_outcome_witness :
    endLevel exampleConfig lastWaveLost = { game := loss (afterLevel lastWaveLost) }
    ∧ endLevel exampleConfig lastWaveWon = { game := win (afterLevel lastWaveWon) } :=
  ⟨(endLevel_outcome exampleConfig lastWaveLost).2.1 levelWon_lastWaveLost,
   (endLevel_outcome exampleConfig lastWaveWon).2.2.2.1 levelWon_lastWaveWon
     (by rw [lastWaveWon, midWave_eq]; simp [exampleConfig, construct])⟩

/-- C12 fails on the code.  In the session whose first `startLevel` found no
level (`level` undefined, no replay button, not paused) a fire command at a
point on no link is not dropped: each of the four handlers plays the gun sound,
takes `bullets` from 0 to -1 and then throws on `this.level.radius`. -/
theorem fire_without_level_throws :
    Reachable emptyConfig noLevelGame
    ∧ noLevelGame.level = none ∧ noLevelGame.replayButton = none ∧ noLevelGame.paused = false
    ∧ noLevelGame.bullets = 0
    ∧ handleClick missStage 0 origin noLevelGame
        = { game := { noLevelGame with bullets := -1, trace := Call.gunSound :: noLevelGame.trace },
            threw := true }
    ∧ keypress " " missStage exampleWindow origin 0 noLevelGame
        = handleClick missStage 0 origin noLevelGame
    ∧ (keypress "q" missStage exampleWindow origin 0 noLevelGame).threw = true
    ∧ (keypress "q" missStage exampleWindow origin 0 noLevelGame).game.bullets = -1
    ∧ (onBlink missStage exampleWindow 0 true noLevelGame).threw = true
    ∧ (onBlink missStage exampleWindow 0 true noLevelGame).game.bullets = -1 := by
  refine ⟨Reachable.step _ _ Reachable.init rfl, ?_⟩
  rw [noLevelGame_eq]
  simp [handleClick, keypress, onBlink, dispatch, fireOrReplay, outOfAmmo, shouldWaveEnd, shoot,
    missStage, construct]

/-- C13 fails as stated.  Right after `onLoad` a level is loaded and no wave was
started: `ducksShotThisWave` is still undefined, and `updateScore(1)` leaves it
`NaN` instead of increasing it by 1. -/
theorem updateScore_before_first_wave :
    Reachable exampleConfig introGame
    ∧ introGame.level.isSome = true
    ∧ ¬ ∃ k : Int, introGame.ducksShotThisWave = some k
        ∧ (updateScore 1 introGame).game.ducksShotThisWave = some (k + 1) := by
  refine ⟨Reachable.step _ _ Reachable.init rfl, ?_⟩
  rw [introGame_eq]
  simp [construct]

/-- C13, amended.  With a level loaded and the counter of the current wave
defined, `updateScore n` adds `n` to ducksShot and to ducksShotThisWave, adds
`n * level.pointsPerDuck` to score and leaves every other field as it is
(bullets, ducksMissed, wave, levelIndex, maxScore and timePaused among them);
hence for `n ≥ 0` and `pointsPerDuck ≥ 0` the score does not decrease.  The
counter is defined in every reachable state in which a level is loaded and
bullets are left, that is wherever a shot is accepted. -/
theorem updateScore_bookkeeping :
    (∀ (g : Game) (l : Level) (n k : Int), g.level = some l → g.ducksShotThisWave = some k →
        updateScore n g =
          { game := { g with ducksShot := g.ducksShot + n, ducksShotThisWave := some (k + n),
                             score := g.score + n * l.pointsPerDuck } }
        ∧ (0 ≤ n → 0 ≤ l.pointsPerDuck → g.score ≤ (updateScore n g).game.score))
    ∧ (∀ (cfg : Config) (g : Game), Reachable cfg g → g.level.isSome = true → g.bullets ≠ 0 →
        ∃ k, g.ducksShotThisWave = some k) := by
  refine ⟨fun g l n k hl hk => ?_, reachable_shot_tally⟩
  have e : updateScore n g =
      { game := { g with ducksShot := g.ducksShot + n, ducksShotThisWave := some (k + n),
                         score := g.score + n * l.pointsPerDuck } } := by
    simp [updateScore, hl, hk]
  refine ⟨e, fun hn hp => ?_⟩
  rw [e]
  show g.score ≤ g.score + n * l.pointsPerDuck
  have := mul_nonneg hn hp
  omega

/-- Witness of C13, amended: one duck hit in the first wave of the example. -/
theorem updateScore_bookkeeping_witness :
    (updateScore 1 midWave).game.ducksShot = 1
    ∧ (updateScore 1 midWave).game.ducksShotThisWave = some 1
    ∧ (updateScore 1 midWave).game.score = 10
    ∧ (updateScore 1 midWave).game.bullets = 3 := by
  have h := (updateScore_bookkeeping.1 midWave (exampleLevel 10 3) 1 0
    (by rw [midWave_eq]) (by rw [midWave_eq])).1
  rw [h, midWave_eq]
  simp [construct, exampleLevel]

/-- C14 fails as stated at the boundary.  The session was paused for 3025 ms
during the intro, so `timePaused` is the double 3.025; the wave of 13 seconds
starts at 5000 ms.  At 21025 ms, that is 16.025 = 13 + 3.025 seconds after the
wave start, `waveElapsedTime` is 16.025 - 3.025 = 12.999999999999998 in double
arithmetic, not the exact difference, and `isWaveTimeUp` is still false. -/
theorem wave_time_up_late :
    Reachable exampleConfig pausedEarlier
    ∧ pausedEarlier.level = some (exampleLevel 10 3)
    ∧ pausedEarlier.timePaused = some pausedSeconds
    ∧ pausedEarlier.waveStartTime = some 5000
    ∧ waveElapsedTime 21025 pausedEarlier = some (7318349394477055 / 562949953421312)
    ∧ waveElapsedTime 21025 pausedEarlier
        ≠ some (((21025 - 5000 : Int) : ℚ) / 1000 - pausedSeconds)
    ∧ (exampleLevel 10 3).time + pausedSeconds ≤ ((21025 - 5000 : Int) : ℚ) / 1000
    ∧ isWaveTimeUp 21025 pausedEarlier = false := by
  have hw : waveElapsedTime 21025 pausedEarlier
      = some (7318349394477055 / 562949953421312) := by
    rw [pausedEarlier_eq]
    simp only [waveElapsedTime, secondsSince, construct, Option.map_some']
    push_cast
    rw [binary64_16025, binary64_16025_less]
  refine ⟨reachable_pausedEarlier, by rw [pausedEarlier_eq], by rw [pausedEarlier_eq],
    by rw [pausedEarlier_eq], hw, ?_, ?_, ?_⟩
  · rw [hw]; norm_num [pausedSeconds]
  · norm_num [exampleLevel, pausedSeconds]
  · have hl : pausedEarlier.level = some (exampleLevel 10 3) := by rw [pausedEarlier_eq]
    unfold isWaveTimeUp
    rw [hl, hw]
    norm_num [exampleLevel]

/-- C14, amended.  `startLevel` and `startWave` leave `timePaused` as it is, so
the pause `P` accumulated before a wave is subtracted in that wave.  With a
level loaded, in the wave started at `ws` the elapsed time at `t` is the double
`fl(fl((t - ws) / 1000) - P)`, within `elapsedSlack` (a relative `2^-51`) of
`(t - ws) / 1000 - P`; at the wave start it is `fl(-P)`, which is `-P` in
every reachable state.  `isWaveTimeUp` is true only when `(t - ws) / 1000` has
reached `level.time + P` up to that slack, and is true once it exceeds
`level.time + P` by the slack. -/
theorem paused_time_carries_over (cfg : Config) (g : Game) (l : Level) (ws : Int) (P : ℚ)
    (hl : g.level = some l) (hP : g.timePaused = some P) :
    (startLevel cfg g).game.timePaused = some P
    ∧ (startWave ws g).game.timePaused = some P
    ∧ (∀ t : Int, waveElapsedTime t (startWave ws g).game
          = some (binary64 (binary64 (((t - ws : Int) : ℚ) / 1000) - P)))
    ∧ (∀ t : Int, |binary64 (binary64 (((t - ws : Int) : ℚ) / 1000) - P)
          - (((t - ws : Int) : ℚ) / 1000 - P)| ≤ elapsedSlack (((t - ws : Int) : ℚ) / 1000) P)
    ∧ waveElapsedTime ws (startWave ws g).game = some (binary64 (-P))
    ∧ (Reachable cfg g → waveElapsedTime ws (startWave ws g).game = some (-P))
    ∧ (∀ t : Int, isWaveTimeUp t (startWave ws g).game = true →
          l.time + P - elapsedSlack (((t - ws : Int) : ℚ) / 1000) P ≤ ((t - ws : Int) : ℚ) / 1000)
    ∧ (∀ t : Int,
          l.time + P + elapsedSlack (((t - ws : Int) : ℚ) / 1000) P ≤ ((t - ws : Int) : ℚ) / 1000 →
          isWaveTimeUp t (startWave ws g).game = true) := by
  have h0 : waveElapsedTime ws (startWave ws g).game = some (binary64 (-P)) := by
    rw [waveElapsedTime_startWave ws ws g l P hl hP]
    simp [binary64_zero]
  refine ⟨by rw [startLevel_timePaused, hP], by rw [startWave_timePaused, hP],
    fun t => waveElapsedTime_startWave ws t g l P hl hP, fun t => elapsed_err _ P, h0,
    fun hr => ?_, fun t ht => ?_, fun t ht => ?_⟩
  · rw [h0, binary64_neg, reachable_paused_double cfg g hr P hP]
  · rw [isWaveTimeUp_startWave ws t g l P hl hP, decide_eq_true_eq] at ht
    have := (abs_le.mp (elapsed_err (((t - ws : Int) : ℚ) / 1000) P)).2
    linarith
  · rw [isWaveTimeUp_startWave ws t g l P hl hP, decide_eq_true_eq]
    have := (abs_le.mp (elapsed_err (((t - ws : Int) : ℚ) / 1000) P)).1
    linarith

/-- Witness of C14, amended: a wave started at 30000 ms in the session paused
for 3.025 s keeps that pause and is over 17 seconds later. -/
theorem paused_time_carries_over_witness :
    (startWave 30000 pausedEarlier).game.timePaused = some pausedSeconds
    ∧ waveElapsedTime 30000 (startWave 30000 pausedEarlier).game = some (-pausedSeconds)
    ∧ isWaveTimeUp 47000 (startWave 30000 pausedEarlier).game = true := by
  have h := paused_time_carries_over exampleConfig pausedEarlier (exampleLevel 10 3) 30000
    pausedSeconds (by rw [pausedEarlier_eq]) (by rw [pausedEarlier_eq])
  refine ⟨h.2.1, h.2.2.2.2.2.1 reachable_pausedEarlier, h.2.2.2.2.2.2.2 47000 ?_⟩
  norm_num [elapsedSlack, exampleLevel, pausedSeconds, abs_of_pos]

end DuckHunt
